import Mathlib

/-! The pwmd lookup of Exim (src/lookups/pwmd.c)

A shallow embedding of the three entry points of the lookup:

* `pwm_open`, which splits the option `pwmd_socket_args` into the static
  vector `args` of `ARG_MAX` connect arguments;
* `pwm_find`, which builds or reuses the cached libpwmd handle, runs the
  open and GET cycle with its reopen loop and escapes the reply;
* `pwm_tidy`, which closes the cached handle.

A C string is represented by the list of its characters before the
terminating NUL; a pointer that may be NULL is an `Option`.
-/

namespace Pwmd

/-! ## Argument vector and parser (pwm_open) -/

/-- Number of socket arguments handed to pwmd_connect: the macro ARG_MAX. -/
def ARG_MAX : Nat := 8

/-- The static vector args: ARG_MAX string pointers, none being NULL. -/
abbrev Args := List (Option (List Char))

/-- Static storage is zero initialised: every slot starts out NULL. -/
def initial_args : Args := List.replicate ARG_MAX none

/-- The C library classifier isspace in the C locale: space, tab, newline,
vertical tab, form feed and carriage return. -/
def isspace (c : Char) : Bool :=
  c == ' ' || c == '\t' || c == '\n' || c == '\x0b' || c == '\x0c' || c == '\r'

/-- Behaviour of the scan that C leaves undefined. -/
inductive Fault where
  /-- The scan pointer sp was advanced beyond the terminating NUL of the option
  string and dereferenced there. -/
  | readPastEnd
  /-- A store through p landed outside the PATH_MAX bytes of buf. -/
  | bufOverflow
  deriving DecidableEq, Repr

/-- Local state of the scan in pwm_open: the text collected in buf so far
(the bytes between buf and p), the counter argn, and the vector args. -/
structure ScanState where
  buf : List Char
  argn : Nat
  args : Args
  deriving DecidableEq, Repr

/-- Result of running the scan: a fault, or the state on leaving the loop. -/
inductive ScanResult where
  | fault (f : Fault)
  | done (st : ScanState)
  deriving DecidableEq, Repr

/-- The for loop of pwm_open (lines 54 to 71), by recursion on the text that sp
points at. The parameter pathMax is PATH_MAX of limits.h, the size of buf.

* Empty text: the loop condition reads the NUL and the loop ends.
* A white space character is stepped over by the inner while loop. When more
  text follows, the iteration goes on from there exactly as a fresh iteration
  would (the state is untouched and the loop condition holds). When nothing
  follows, the while loop stops on the NUL, the test of line 58 fails, line 70
  stores the NUL through p, and the increment of the for loop moves sp beyond
  the terminator, where the loop condition reads it.
* A comma, or the last character of the text, ends a segment: the last
  character is first appended to buf (line 60), the terminator is stored
  (line 61), buf is copied into args[argn] and argn is incremented (line 63);
  the loop is left when argn has reached ARG_MAX (line 64), otherwise buf is
  reset and the scan continues behind the character.
* Any other character is appended to buf (line 70). -/
def scan (pathMax : Nat) : List Char → ScanState → ScanResult
  | [], st => .done st
  | c :: rest, st =>
    if isspace c then
      match rest with
      | [] =>
        if st.buf.length < pathMax then .fault .readPastEnd else .fault .bufOverflow
      | _ :: _ => scan pathMax rest st
    else if c = ',' ∨ rest = [] then
      let buf := if rest = [] then st.buf ++ [c] else st.buf
      if pathMax ≤ buf.length then .fault .bufOverflow
      else
        let args := st.args.set st.argn (some buf)
        let argn := st.argn + 1
        if ARG_MAX ≤ argn then .done { buf := buf, argn := argn, args := args }
        else scan pathMax rest { buf := [], argn := argn, args := args }
    else
      if pathMax ≤ st.buf.length then .fault .bufOverflow
      else scan pathMax rest { st with buf := st.buf ++ [c] }

/-- The function free_args: each of the ARG_MAX slots is released and set to
NULL, in index order. -/
def free_args (args : Args) : Args :=
  (List.range ARG_MAX).foldl (fun a i => a.set i none) args

/-- The messages pwm_open can store through errmsg. -/
inductive OpenError where
  /-- Line 41: error initializing libpwmd, with the code. -/
  | initFailed (rc : Nat)
  /-- Line 75: Too many parameters to pwmd_connect() (max=ARG_MAX). -/
  | tooManyParameters (max : Nat)
  deriving DecidableEq, Repr

/-- What a call of pwm_open leaves behind: whether the returned pointer is
non-null, the message stored through errmsg (none when untouched), and the
static vector args. -/
structure OpenOutcome where
  nonNull : Bool
  errmsg : Option OpenError
  args : Args
  deriving DecidableEq, Repr

/-- Result of pwm_open: undefined behaviour in the scan, or a return. -/
inductive OpenResult where
  | fault (f : Fault)
  | returned (out : OpenOutcome)
  deriving DecidableEq, Repr

/-- The function pwm_open. initRc is the value returned by pwmd_init,
pwmd_socket_args the configured option (none when unset), args the static
vector as the call finds it. -/
def pwm_open (pathMax : Nat) (initRc : Nat) (pwmd_socket_args : Option (List Char))
    (args : Args) : OpenResult :=
  if initRc ≠ 0 then
    .returned { nonNull := false, errmsg := some (.initFailed initRc), args := args }
  else
    match pwmd_socket_args with
    | none => .returned { nonNull := true, errmsg := none, args := args }
    | some spec =>
      match scan pathMax spec { buf := [], argn := 0, args := args } with
      | .fault f => .fault f
      | .done st =>
        if ARG_MAX ≤ st.argn then
          .returned { nonNull := false, errmsg := some (.tooManyParameters ARG_MAX),
                      args := free_args st.args }
        else
          .returned { nonNull := true, errmsg := none, args := st.args }

/-- A segment as the scan stores it: its characters other than white space. -/
def squeeze (seg : List Char) : List Char :=
  seg.filter (fun c => !isspace c)

/-- The option text made of the given segments, separated by commas. -/
def joinSegments (segs : List (List Char)) : List Char :=
  List.intercalate [','] segs

/-! ## Session and query (pwm_find, pwm_tidy) -/

/-- Return values of a lookup function: the Exim codes OK, DEFER and FAIL. -/
inductive ReturnCode where
  | OK
  | DEFER
  | FAIL
  deriving DecidableEq, Repr

/-- The two libpwmd options the lookup sets (PWMD_OPTION_LOCK_ON_OPEN and
PWMD_OPTION_LOCK_TIMEOUT). -/
inductive PwmdOption where
  | LOCK_ON_OPEN
  | LOCK_TIMEOUT
  deriving DecidableEq, Repr

/-- The error code part of a gpg_error_t: libgpg-error masks the value with
GPG_ERR_CODE_MASK, which is 65535. -/
def gpg_err_code (rc : Nat) : Nat := rc % 65536

/-- The libgpg-error code GPG_ERR_CHECKSUM. -/
def GPG_ERR_CHECKSUM : Nat := 10

/-- The calls pwm_find and pwm_tidy make into libpwmd, the C library and the
Exim store, with their arguments. A handle is a natural number; pwmd_close
also accepts the NULL handle. -/
inductive Call where
  | pwmd_new
  | pwmd_setopt (h : Nat) (opt : PwmdOption) (value : Nat)
  | pwmd_connect (h : Nat) (socket : Option (List Char)) (args : Args)
  | pwmd_close (h : Option Nat)
  | pwmd_open (h : Nat) (file : List Char)
  | pwmd_command (h : Nat) (query : List Char)
  | sleep (seconds : Nat)
  | store_get (size : Nat)
  | pwmd_free
  deriving DecidableEq, Repr

/-- Recognises a pwmd_open call. -/
def Call.isOpen : Call → Bool
  | .pwmd_open _ _ => true
  | _ => false

/-- Recognises a pwmd_command call. -/
def Call.isCommand : Call → Bool
  | .pwmd_command _ _ => true
  | _ => false

/-- Recognises a sleep call. -/
def Call.isSleep : Call → Bool
  | .sleep _ => true
  | _ => false

/-- The world outside the lookup. Every answer may depend on the calls made so
far (in order of issue):
* rc: the gpg_error_t a libpwmd call returns;
* new_handle: the handle a successful pwmd_new stores;
* reply: the text a successful pwmd_command stores in cmd_result;
* store_get_ok: whether store_get returns a non-null block. -/
structure Env where
  rc : List Call → Call → Nat
  new_handle : List Call → Nat
  reply : List Call → List Char
  store_get_ok : List Call → Bool

/-- The messages pwm_find can store through errmsg, by source line. -/
inductive FindError where
  /-- Line 107: required parameter pwmd_file is not set. -/
  | fileNotSet
  /-- Line 119: pwmd_new() failed. -/
  | newFailed (rc : Nat)
  /-- Line 126: pwmd_setopt() failed. -/
  | setoptFailed (rc : Nat)
  /-- Line 136: pwmd_connect() failed. -/
  | connectFailed (rc : Nat)
  /-- Line 155: error while setting lock timeout. -/
  | lockTimeoutFailed (rc : Nat)
  /-- Line 186: deferring due to pwmd error. -/
  | deferring (rc : Nat)
  deriving DecidableEq, Repr

/-- What a call of pwm_find leaves behind: the return value, the text stored
through result and the message stored through errmsg (none when untouched),
the value of the flag do_cache, the static handle, and the calls made so far. -/
structure FindOutcome where
  ret : ReturnCode
  result : Option (List Char)
  errmsg : Option FindError
  do_cache : Nat
  handle : Option Nat
  calls : List Call
  deriving DecidableEq, Repr

/-- Result of the session block of pwm_find (lines 113 to 160). -/
inductive SessionResult where
  /-- The static handle is non-null on reaching the loop. -/
  | ready (h : Nat) (calls : List Call)
  /-- The block returned from pwm_find; the static handle is NULL. -/
  | failed (ret : ReturnCode) (err : FindError) (calls : List Call)
  deriving DecidableEq, Repr

/-- Lines 113 to 160 of pwm_find. A non-null handle is kept as it is.
Otherwise pwmd_new, pwmd_setopt (lock on open, 0), pwmd_connect (socket and
the eight slots of args) and pwmd_setopt (lock timeout, 100) follow each other,
and the first non-zero return code ends pwm_find: with DEFER after pwmd_new,
with FAIL after the first pwmd_setopt, with DEFER after pwmd_connect and after
the second pwmd_setopt; in the last three cases the handle is closed and set
to NULL first. A failing pwmd_new leaves the handle NULL. -/
def pwm_find_session (E : Env) (pwmd_socket : Option (List Char)) (args : Args)
    (handle : Option Nat) (calls : List Call) : SessionResult :=
  match handle with
  | some h => .ready h calls
  | none =>
    let rc := E.rc calls .pwmd_new
    let h := E.new_handle calls
    let calls := calls ++ [.pwmd_new]
    if rc ≠ 0 then .failed .DEFER (.newFailed rc) calls
    else
      let c := Call.pwmd_setopt h .LOCK_ON_OPEN 0
      let rc := E.rc calls c
      let calls := calls ++ [c]
      if rc ≠ 0 then .failed .FAIL (.setoptFailed rc) (calls ++ [.pwmd_close (some h)])
      else
        let c := Call.pwmd_connect h pwmd_socket args
        let rc := E.rc calls c
        let calls := calls ++ [c]
        if rc ≠ 0 then .failed .DEFER (.connectFailed rc) (calls ++ [.pwmd_close (some h)])
        else
          let c := Call.pwmd_setopt h .LOCK_TIMEOUT 100
          let rc := E.rc calls c
          let calls := calls ++ [c]
          if rc ≠ 0 then
            .failed .DEFER (.lockTimeoutFailed rc) (calls ++ [.pwmd_close (some h)])
          else .ready h calls

/-- How the do-while loop of pwm_find is left, with the test of line 184
applied to the final rc. -/
inductive LoopResult where
  /-- The final rc is non-zero. -/
  | failed (rc : Nat) (calls : List Call)
  /-- The final rc is zero: pwmd_command stored the text in cmd_result. -/
  | got (cmd_result : List Char) (calls : List Call)
  deriving DecidableEq, Repr

/-- The do-while loop of pwm_find (lines 162 to 182); one unit of fuel per
iteration, none when the fuel is used up. Each iteration calls pwmd_open and
leaves the loop on a non-zero code (line 172); otherwise it calls
pwmd_command, and when the code of its result is GPG_ERR_CHECKSUM it sleeps
one second and iterates (lines 180 and 182). -/
def pwm_find_loop (E : Env) (h : Nat) (file query : List Char) :
    Nat → List Call → Option LoopResult
  | 0, _ => none
  | fuel + 1, calls =>
    let o := Call.pwmd_open h file
    let rc := E.rc calls o
    let calls := calls ++ [o]
    if rc ≠ 0 then some (.failed rc calls)
    else
      let c := Call.pwmd_command h query
      let rc := E.rc calls c
      let cmd_result := E.reply calls
      let calls := calls ++ [c]
      if gpg_err_code rc = GPG_ERR_CHECKSUM then
        pwm_find_loop E h file query fuel (calls ++ [.sleep 1])
      else if rc ≠ 0 then some (.failed rc calls)
      else some (.got cmd_result calls)

/-- One round of the escaping loop (lines 206 to 214), e being the text
written so far: the cases for the dollar sign and the backslash store a
backslash and fall through to the default case, which stores the character. -/
def escape_step (e : List Char) (c : Char) : List Char :=
  let e := if c = '$' ∨ c = '\\' then e ++ ['\\'] else e
  e ++ [c]

/-- The escaping loop of pwm_find (lines 204 to 217) over the text of
cmd_result, starting from an empty output. -/
def escape (cmd_result : List Char) : List Char :=
  cmd_result.foldl escape_step []

/-- The escaping as the specification words it: the concatenation, over the
characters of the text, of a backslash followed by the character when it is a
dollar sign or a backslash, and of the character alone otherwise. -/
def escape_spec (s : List Char) : List Char :=
  s.flatMap (fun c => if c = '$' ∨ c = '\\' then ['\\', c] else [c])

/-- The function pwm_find. pwmd_file and pwmd_socket are the configured
options, args the static vector, handle the static handle and calls the calls
made so far on entry; do_cache is the value the caller left in the flag.
The result is none when the loop did not finish within the fuel. -/
def pwm_find (E : Env) (pwmd_file pwmd_socket : Option (List Char)) (args : Args)
    (fuel : Nat) (handle : Option Nat) (calls : List Call) (query : List Char)
    (do_cache : Nat) : Option FindOutcome :=
  match pwmd_file with
  | none | some [] =>
    some { ret := .FAIL, result := none, errmsg := some .fileNotSet,
           do_cache := do_cache, handle := handle, calls := calls }
  | some (f :: file) =>
    match pwm_find_session E pwmd_socket args handle calls with
    | .failed ret err calls =>
      some { ret := ret, result := none, errmsg := some err,
             do_cache := 0, handle := none, calls := calls }
    | .ready h calls =>
      match pwm_find_loop E h (f :: file) query fuel calls with
      | none => none
      | some (.failed rc calls) =>
        some { ret := .DEFER, result := none, errmsg := some (.deferring rc),
               do_cache := 0, handle := some h, calls := calls }
      | some (.got cmd_result calls) =>
        let len := cmd_result.length * 2
        let escaped := E.store_get_ok calls
        let calls := calls ++ [.store_get (len + 1)]
        if escaped = false then
          some { ret := .DEFER, result := none, errmsg := none,
                 do_cache := 0, handle := some h, calls := calls ++ [.pwmd_free] }
        else
          some { ret := .OK, result := some (escape cmd_result), errmsg := none,
                 do_cache := 1, handle := some h, calls := calls ++ [.pwmd_free] }

/-- The function pwm_tidy: the handle is passed to pwmd_close, NULL or not,
and set to NULL. -/
def pwm_tidy (handle : Option Nat) (calls : List Call) : Option Nat × List Call :=
  (none, calls ++ [.pwmd_close handle])

/-- A transport on which every call succeeds: pwmd_new hands out the handle 1
and every GET is answered with the given text. -/
def steadyEnv (reply : List Char) : Env where
  rc := fun _ _ => 0
  new_handle := fun _ => 1
  reply := fun _ => reply
  store_get_ok := fun _ => true

/-- A transport whose GET reports GPG_ERR_CHECKSUM as long as fewer than k GET
commands have been issued, and on which every other call succeeds. -/
def staleEnv (k : Nat) (reply : List Char) : Env where
  rc := fun calls c =>
    if c.isCommand && decide (calls.countP Call.isCommand < k) then GPG_ERR_CHECKSUM else 0
  new_handle := fun _ => 1
  reply := fun _ => reply
  store_get_ok := fun _ => true

/-- A transport whose first pwmd_open reports GPG_ERR_CHECKSUM and on which
every other call, later pwmd_open calls included, succeeds. -/
def staleOpenEnv (reply : List Char) : Env where
  rc := fun calls c =>
    if c.isOpen && decide (calls.countP Call.isOpen = 0) then GPG_ERR_CHECKSUM else 0
  new_handle := fun _ => 1
  reply := fun _ => reply
  store_get_ok := fun _ => true

/-- A scripted transport: the call issued when n calls have been made returns
the n-th entry of the list, and zero beyond its end; pwmd_new hands out the
handle 1, every GET is answered with v, and store_get grants every block. -/
def scriptEnv (codes : List Nat) : Env where
  rc := fun calls _ => codes.getD calls.length 0
  new_handle := fun _ => 1
  reply := fun _ => ['v']
  store_get_ok := fun _ => true

/-- The calls of n rounds of the loop of pwm_find that each end in a retry:
pwmd_open, pwmd_command and a sleep of one second. -/
def staleRounds (h : Nat) (file query : List Char) : Nat → List Call
  | 0 => []
  | n + 1 =>
    [.pwmd_open h file, .pwmd_command h query, .sleep 1] ++ staleRounds h file query n

/-- Reading an escaped text from left to right: a backslash is dropped and the
character behind it is copied literally; any other character is copied. A
backslash at the very end has no character behind it and is dropped. -/
def unescape : List Char → List Char
  | [] => []
  | [c] => if c = '\\' then [] else [c]
  | c :: d :: t => if c = '\\' then d :: unescape t else c :: unescape (d :: t)

/-- Reading an escaped text from left to right, pair by pair: no dollar sign
stands on its own, that is, each one is the character behind an escaping
backslash. -/
def dollarsGuarded : List Char → Bool
  | [] => true
  | [c] => c != '$'
  | c :: d :: t => if c = '\\' then dollarsGuarded t else c != '$' && dollarsGuarded (d :: t)

/-- The four calls by which pwm_find builds a session around the handle h:
pwmd_new, pwmd_setopt (lock on open, 0), pwmd_connect (socket and the slots of
args) and pwmd_setopt (lock timeout, 100). -/
def handshakeCalls (h : Nat) (pwmd_socket : Option (List Char)) (args : Args) : List Call :=
  [.pwmd_new, .pwmd_setopt h .LOCK_ON_OPEN 0, .pwmd_connect h pwmd_socket args,
   .pwmd_setopt h .LOCK_TIMEOUT 100]

/-- The slots written by consecutive stores args[n++] = b, one per entry. -/
def storeFrom (args : Args) : Nat → List (List Char) → Args
  | _, [] => args
  | n, b :: bs => storeFrom (args.set n (some b)) (n + 1) bs

/-- The last segment of a list of segments ends in a character that is not
white space (so the segment is not empty, and the text does not end in white
space or in a comma). -/
def lastSegmentClosed (segs : List (List Char)) : Prop :=
  ∃ body c, segs.getLast? = some (body ++ [c]) ∧ isspace c = false

/-! ## Facts about the scan -/

theorem isspace_comma : isspace ',' = false := by decide

theorem squeeze_nil : squeeze [] = [] := rfl

theorem squeeze_cons_space (c : Char) (s : List Char) (h : isspace c = true) :
    squeeze (c :: s) = squeeze s := by
  simp [squeeze, h]

theorem squeeze_cons_other (c : Char) (s : List Char) (h : isspace c = false) :
    squeeze (c :: s) = c :: squeeze s := by
  simp [squeeze, h]

theorem squeeze_append (s t : List Char) : squeeze (s ++ t) = squeeze s ++ squeeze t := by
  simp [squeeze]

theorem squeeze_single (c : Char) (h : isspace c = false) : squeeze [c] = [c] := by
  simp [squeeze, h]

theorem joinSegments_single (s : List Char) : joinSegments [s] = s := by
  simp [joinSegments, List.intercalate]

theorem joinSegments_cons_cons (s s2 : List Char) (t : List (List Char)) :
    joinSegments (s :: s2 :: t) = s ++ ',' :: joinSegments (s2 :: t) := by
  simp [joinSegments, List.intercalate]

theorem scan_nil (pathMax : Nat) (st : ScanState) : scan pathMax [] st = .done st := by
  simp [scan]

theorem scan_space_more (pathMax : Nat) (c d : Char) (r : List Char) (st : ScanState)
    (h : isspace c = true) : scan pathMax (c :: d :: r) st = scan pathMax (d :: r) st := by
  simp [scan, h]

theorem scan_space_last (pathMax : Nat) (c : Char) (st : ScanState) (h : isspace c = true) :
    scan pathMax [c] st =
      if st.buf.length < pathMax then .fault .readPastEnd else .fault .bufOverflow := by
  simp [scan, h]

theorem scan_plain (pathMax : Nat) (c : Char) (rest : List Char) (st : ScanState)
    (h : isspace c = false) (hc : c ≠ ',') (hr : rest ≠ []) (hb : st.buf.length < pathMax) :
    scan pathMax (c :: rest) st = scan pathMax rest { st with buf := st.buf ++ [c] } := by
  simp [scan, h, hc, hr, Nat.not_le.mpr hb]

theorem scan_comma_more (pathMax : Nat) (rest : List Char) (st : ScanState)
    (hr : rest ≠ []) (hb : st.buf.length < pathMax) :
    scan pathMax (',' :: rest) st =
      if ARG_MAX ≤ st.argn + 1 then
        .done { buf := st.buf, argn := st.argn + 1, args := st.args.set st.argn (some st.buf) }
      else
        scan pathMax rest
          { buf := [], argn := st.argn + 1, args := st.args.set st.argn (some st.buf) } := by
  simp [scan, isspace_comma, hr, Nat.not_le.mpr hb]

theorem scan_last (pathMax : Nat) (c : Char) (st : ScanState)
    (h : isspace c = false) (hb : st.buf.length + 1 < pathMax) :
    scan pathMax [c] st =
      if ARG_MAX ≤ st.argn + 1 then
        .done { buf := st.buf ++ [c], argn := st.argn + 1,
                args := st.args.set st.argn (some (st.buf ++ [c])) }
      else
        .done { buf := [], argn := st.argn + 1,
                args := st.args.set st.argn (some (st.buf ++ [c])) } := by
  simp [scan, h, Nat.not_le.mpr hb]

/-- Scanning a comma-free segment that is followed by a comma: the segment is
collected without its white space, stored in slot argn, and the scan either
stops (slot count reached) or goes on behind the comma with an empty buf. A
comma that is the last character of the text is itself appended to buf. -/
theorem scan_segment_comma (pathMax : Nat) (seg rest : List Char) :
    ∀ (st : ScanState), ',' ∉ seg →
      (st.buf ++ squeeze seg ++ (if rest = [] then [','] else [])).length < pathMax →
      scan pathMax (seg ++ ',' :: rest) st =
        (if ARG_MAX ≤ st.argn + 1 then
          .done { buf := st.buf ++ squeeze seg ++ (if rest = [] then [','] else []),
                  argn := st.argn + 1,
                  args := st.args.set st.argn
                    (some (st.buf ++ squeeze seg ++ (if rest = [] then [','] else []))) }
        else
          scan pathMax rest
            { buf := [], argn := st.argn + 1,
              args := st.args.set st.argn
                (some (st.buf ++ squeeze seg ++ (if rest = [] then [','] else []))) }) := by
  induction seg with
  | nil =>
    intro st _ hlen
    simp only [squeeze_nil, List.append_nil, List.nil_append] at hlen ⊢
    by_cases hr : rest = []
    · subst hr
      simp only [if_true, List.length_append, List.length_singleton] at hlen
      rw [scan_last pathMax ',' st isspace_comma hlen]
      simp [scan_nil]
    · simp only [if_neg hr, List.append_nil] at hlen ⊢
      rw [scan_comma_more pathMax rest st hr hlen]
  | cons c s ih =>
    intro st hc hlen
    have hc1 : c ≠ ',' := fun h => hc (by simp [h])
    have hc2 : ',' ∉ s := fun h => hc (by simp [h])
    have hne : s ++ ',' :: rest ≠ [] := by simp
    cases hsp : isspace c with
    | true =>
      rw [squeeze_cons_space c s hsp] at hlen ⊢
      obtain ⟨d, r, hdr⟩ := List.exists_cons_of_ne_nil hne
      rw [List.cons_append, hdr, scan_space_more pathMax c d r st hsp, ← hdr]
      exact ih st hc2 hlen
    | false =>
      rw [squeeze_cons_other c s hsp] at hlen ⊢
      have hb : st.buf.length < pathMax := by
        simp only [List.length_append, List.length_cons] at hlen
        omega
      have := ih { st with buf := st.buf ++ [c] } hc2 (by simpa using hlen)
      rw [List.cons_append, scan_plain pathMax c _ st hsp hc1 hne hb]
      simpa using this

/-- Scanning the last segment of the text, a comma-free body followed by a
character that is not white space: the segment is stored in slot argn. -/
theorem scan_segment_last (pathMax : Nat) (body : List Char) (c : Char)
    (hsp : isspace c = false) :
    ∀ (st : ScanState), ',' ∉ body →
      (st.buf ++ squeeze body).length + 1 < pathMax →
      scan pathMax (body ++ [c]) st =
        (if ARG_MAX ≤ st.argn + 1 then
          .done { buf := st.buf ++ squeeze body ++ [c], argn := st.argn + 1,
                  args := st.args.set st.argn (some (st.buf ++ squeeze body ++ [c])) }
        else
          .done { buf := [], argn := st.argn + 1,
                  args := st.args.set st.argn (some (st.buf ++ squeeze body ++ [c])) }) := by
  induction body with
  | nil =>
    intro st _ hlen
    simp only [squeeze_nil, List.append_nil, List.nil_append] at hlen ⊢
    exact scan_last pathMax c st hsp hlen
  | cons b s ih =>
    intro st hc hlen
    have hc1 : b ≠ ',' := fun h => hc (by simp [h])
    have hc2 : ',' ∉ s := fun h => hc (by simp [h])
    have hne : s ++ [c] ≠ [] := by simp
    cases hb : isspace b with
    | true =>
      rw [squeeze_cons_space b s hb] at hlen ⊢
      obtain ⟨d, r, hdr⟩ := List.exists_cons_of_ne_nil hne
      rw [List.cons_append, hdr, scan_space_more pathMax b d r st hb, ← hdr]
      exact ih st hc2 hlen
    | false =>
      rw [squeeze_cons_other b s hb] at hlen ⊢
      have hlt : st.buf.length < pathMax := by
        simp only [List.length_append, List.length_cons] at hlen
        omega
      have := ih { st with buf := st.buf ++ [b] } hc2 (by simpa using hlen)
      rw [List.cons_append, scan_plain pathMax b _ st hb hc1 hne hlt]
      simpa using this

theorem storeFrom_append (front : Args) (bs : List (List Char)) :
    ∀ (back : Args), bs.length ≤ back.length →
      storeFrom (front ++ back) front.length bs
        = front ++ bs.map some ++ back.drop bs.length := by
  induction bs generalizing front with
  | nil => intro back _; simp [storeFrom]
  | cons b bs ih =>
    intro back hlen
    cases back with
    | nil => simp at hlen
    | cons x back =>
      have hset : (front ++ x :: back).set front.length (some b)
          = (front ++ [some b]) ++ back := by
        simp [List.set_append]
      have hl : (front ++ [some b]).length = front.length + 1 := by simp
      rw [storeFrom, hset, ← hl, ih (front ++ [some b]) back (by simpa using hlen)]
      simp

theorem storeFrom_initial (bs : List (List Char)) (h : bs.length ≤ ARG_MAX) :
    storeFrom initial_args 0 bs
      = bs.map some ++ List.replicate (ARG_MAX - bs.length) none := by
  have := storeFrom_append [] bs initial_args (by simpa [initial_args] using h)
  simpa [initial_args] using this

theorem joinSegments_ne_nil (segs : List (List Char)) (h : lastSegmentClosed segs) :
    joinSegments segs ≠ [] := by
  induction segs with
  | nil => obtain ⟨_, _, h1, _⟩ := h; simp at h1
  | cons s t _ =>
    cases t with
    | nil =>
      obtain ⟨body, c, h1, _⟩ := h
      simp at h1
      simp [joinSegments_single, h1]
    | cons s2 t => simp [joinSegments_cons_cons]

/-- Scanning a text of segments that fit the vector: every segment is stored,
without its white space, in the next slot, and the loop ends at the end of the
text with argn below ARG_MAX. -/
theorem scan_segments (pathMax : Nat) (segs : List (List Char)) :
    ∀ (argn : Nat) (args : Args),
      lastSegmentClosed segs →
      argn + segs.length < ARG_MAX →
      (∀ s ∈ segs, ',' ∉ s) →
      (∀ s ∈ segs, (squeeze s).length < pathMax) →
      scan pathMax (joinSegments segs) { buf := [], argn := argn, args := args }
        = .done { buf := [], argn := argn + segs.length,
                  args := storeFrom args argn (segs.map squeeze) } := by
  induction segs with
  | nil => intro _ _ h; obtain ⟨_, _, h1, _⟩ := h; simp at h1
  | cons s t ih =>
    intro argn args hlast hN hcomma hshort
    cases t with
    | nil =>
      obtain ⟨body, c, h1, hsp⟩ := hlast
      simp only [List.getLast?_singleton, Option.some.injEq] at h1
      subst h1
      have hcb : ',' ∉ body := fun h =>
        hcomma (body ++ [c]) (by simp) (List.mem_append_left [c] h)
      have hl := hshort (body ++ [c]) (by simp)
      rw [squeeze_append, squeeze_single c hsp] at hl
      simp only [List.length_singleton] at hN
      rw [joinSegments_single, scan_segment_last pathMax body c hsp _ hcb (by simpa using hl)]
      simp [Nat.not_le.mpr hN, storeFrom, squeeze_append, squeeze_single c hsp]
    | cons s2 t =>
      have hlast2 : lastSegmentClosed (s2 :: t) := by
        obtain ⟨body, c, h1, hsp⟩ := hlast
        exact ⟨body, c, by simpa using h1, hsp⟩
      have hne := joinSegments_ne_nil (s2 :: t) hlast2
      have hl := hshort s (by simp)
      simp only [List.length_cons] at hN
      rw [joinSegments_cons_cons,
        scan_segment_comma pathMax s _ _ (hcomma s (by simp)) (by simpa [hne] using hl)]
      have hlt : ¬ ARG_MAX ≤ argn + 1 := by omega
      simp only [hlt, if_false, hne, List.nil_append, List.append_nil]
      rw [ih (argn + 1) _ hlast2 (by simp only [List.length_cons]; omega)
        (fun x hx => hcomma x (by simp [hx])) (fun x hx => hshort x (by simp [hx]))]
      simp [storeFrom]
      omega

/-- The scan never changes the number of slots of the vector. -/
theorem scan_args_length (pathMax : Nat) (s : List Char) :
    ∀ (st st2 : ScanState), scan pathMax s st = .done st2 →
      st2.args.length = st.args.length := by
  induction s with
  | nil =>
    intro st st2 h
    rw [scan_nil] at h
    cases h
    rfl
  | cons c rest ih =>
    intro st st2 h
    cases hsp : isspace c with
    | true =>
      cases rest with
      | nil =>
        rw [scan_space_last pathMax c st hsp] at h
        split at h <;> cases h
      | cons d r =>
        rw [scan_space_more pathMax c d r st hsp] at h
        exact ih st st2 h
    | false =>
      rw [scan.eq_def] at h
      simp only [hsp, Bool.false_eq_true, if_false] at h
      split_ifs at h
      all_goals first
        | (cases h; done)
        | (cases h; simp)
        | (simpa using ih _ st2 h)

/-- After free_args every slot of a vector of ARG_MAX slots is NULL. -/
theorem free_args_eq (args : Args) (h : args.length = ARG_MAX) :
    free_args args = List.replicate ARG_MAX none := by
  obtain _ | ⟨a0, _ | ⟨a1, _ | ⟨a2, _ | ⟨a3, _ | ⟨a4, _ | ⟨a5, _ | ⟨a6, _ | ⟨a7, _ | ⟨a8, r⟩⟩⟩⟩⟩⟩⟩⟩⟩ := args
    <;> simp [ARG_MAX] at h
  rfl

/-- Scanning a text with more segments than free slots: the loop is left
through the break of line 64 with argn equal to ARG_MAX. -/
theorem scan_too_many (pathMax : Nat) (segs : List (List Char)) :
    ∀ (argn : Nat) (args : Args),
      argn < ARG_MAX →
      ARG_MAX < argn + segs.length →
      (∀ s ∈ segs, ',' ∉ s) →
      (∀ s ∈ segs, (squeeze s).length + 1 < pathMax) →
      ∃ st, scan pathMax (joinSegments segs) { buf := [], argn := argn, args := args }
          = .done st ∧ st.argn = ARG_MAX := by
  induction segs with
  | nil => intro argn _ h1 h2; simp at h2; omega
  | cons s t ih =>
    intro argn args hlt hmany hcomma hshort
    cases t with
    | nil => simp at hmany; omega
    | cons s2 t =>
      have hl := hshort s (by simp)
      rw [joinSegments_cons_cons, scan_segment_comma pathMax s _ _ (hcomma s (by simp))
        (by simp only [List.nil_append]; split <;> simp <;> omega)]
      by_cases hfull : ARG_MAX ≤ argn + 1
      · simp only [hfull, if_true]
        exact ⟨_, rfl, by simp; omega⟩
      · simp only [hfull, if_false]
        exact ih (argn + 1) _ (by omega) (by simp only [List.length_cons] at hmany ⊢; omega)
          (fun x hx => hcomma x (by simp [hx])) (fun x hx => hshort x (by simp [hx]))

/-! ## The parser claims -/

/-- C1 (counterexample). The argument vector does not hold the segments as
written: with the segments "x y" and "z" slot 1 receives "xy"; eight segments
are refused although they fit the vector; a text ending in a comma stores the
comma in the last slot written; a text ending in white space drives the scan
pointer beyond the terminator. -/
theorem pwm_open_roundtrip_counterexample :
    pwm_open 4096 0 (some (joinSegments ["x y".toList, "z".toList])) initial_args
        = .returned { nonNull := true, errmsg := none,
                      args := [some "xy".toList, some "z".toList,
                               none, none, none, none, none, none] }
      ∧ "xy".toList ≠ "x y".toList
      ∧ pwm_open 4096 0
          (some (joinSegments ["1".toList, "2".toList, "3".toList, "4".toList,
                               "5".toList, "6".toList, "7".toList, "8".toList]))
          initial_args
        = .returned { nonNull := false, errmsg := some (.tooManyParameters 8),
                      args := [none, none, none, none, none, none, none, none] }
      ∧ pwm_open 4096 0 (some (joinSegments ["x".toList, []])) initial_args
        = .returned { nonNull := true, errmsg := none,
                      args := [some "x,".toList, none, none, none, none, none, none, none] }
      ∧ pwm_open 4096 0 (some (joinSegments ["x".toList, "z ".toList])) initial_args
        = .fault .readPastEnd := by
  decide

/-- C1 (amended). For N at most 7 comma-free segments, the last of which ends
in a character that is not white space, and each with fewer than PATH_MAX
characters other than white space, pwm_open on the initial vector succeeds,
slot i holds segment i with its white space characters removed, for i from 1
to N, and the slots from N+1 to 8 are empty. When no segment contains white
space, slot i holds segment i as written. -/
theorem pwm_open_roundtrip (pathMax : Nat) (segs : List (List Char))
    (hN : segs.length < ARG_MAX)
    (hcomma : ∀ s ∈ segs, ',' ∉ s)
    (hshort : ∀ s ∈ segs, (squeeze s).length < pathMax)
    (hlast : lastSegmentClosed segs) :
    pwm_open pathMax 0 (some (joinSegments segs)) initial_args
        = .returned { nonNull := true, errmsg := none,
                      args := segs.map (fun s => some (squeeze s))
                              ++ List.replicate (ARG_MAX - segs.length) none }
      ∧ ((∀ s ∈ segs, ∀ c ∈ s, isspace c = false) →
          pwm_open pathMax 0 (some (joinSegments segs)) initial_args
            = .returned { nonNull := true, errmsg := none,
                          args := segs.map some
                                  ++ List.replicate (ARG_MAX - segs.length) none }) := by
  have hscan := scan_segments pathMax segs 0 initial_args hlast (by omega) hcomma hshort
  have hargs := storeFrom_initial (segs.map squeeze) (by simp; omega)
  have hmain : pwm_open pathMax 0 (some (joinSegments segs)) initial_args
      = .returned { nonNull := true, errmsg := none,
                    args := segs.map (fun s => some (squeeze s))
                            ++ List.replicate (ARG_MAX - segs.length) none } := by
    simp only [pwm_open, hscan, hargs]
    simp [Nat.not_le.mpr hN, Function.comp_def]
  refine ⟨hmain, fun hclean => ?_⟩
  rw [hmain]
  have : segs.map (fun s => some (squeeze s)) = segs.map some := by
    apply List.map_congr_left
    intro s hs
    have : squeeze s = s := by
      simp only [squeeze, List.filter_eq_self]
      intro c hc
      simp [hclean s hs c hc]
    rw [this]
  rw [this]

/-- C1 (witness). The amended round trip at the segments "a" and "b c". -/
theorem pwm_open_roundtrip_witness :
    ["a".toList, "b c".toList].length < ARG_MAX
      ∧ (∀ s ∈ ["a".toList, "b c".toList], ',' ∉ s)
      ∧ (∀ s ∈ ["a".toList, "b c".toList], (squeeze s).length < 4096)
      ∧ lastSegmentClosed ["a".toList, "b c".toList]
      ∧ pwm_open 4096 0 (some (joinSegments ["a".toList, "b c".toList])) initial_args
          = .returned { nonNull := true, errmsg := none,
                        args := ["a".toList, "b c".toList].map (fun s => some (squeeze s))
                                ++ List.replicate (ARG_MAX - 2) none } :=
  ⟨by decide, by decide, by decide, ⟨"b ".toList, 'c', rfl, rfl⟩,
    (pwm_open_roundtrip 4096 ["a".toList, "b c".toList] (by decide) (by decide) (by decide)
      ⟨"b ".toList, 'c', rfl, rfl⟩).1⟩

/-- C3 (evaluation at the failing input). A text of exactly eight segments,
"a,b,c,d,e,f,g,h", is refused with the message for too many parameters and the
vector is cleared, although each of the eight segments has a slot; the same
text without its last segment is accepted. -/
theorem pwm_open_eight_segments_refused :
    pwm_open 4096 0 (some "a,b,c,d,e,f,g,h".toList) initial_args
        = .returned { nonNull := false, errmsg := some (.tooManyParameters ARG_MAX),
                      args := List.replicate ARG_MAX none }
      ∧ pwm_open 4096 0 (some "a,b,c,d,e,f,g".toList) initial_args
        = .returned { nonNull := true, errmsg := none,
                      args := [some ['a'], some ['b'], some ['c'], some ['d'],
                               some ['e'], some ['f'], some ['g'], none] } := by
  decide

/-- Texts that fit the scan buffer: whenever pwm_open stores the message for
too many parameters, it returns NULL and every one of the ARG_MAX slots is
empty afterwards; and this is what happens for every text of more than ARG_MAX
comma-free segments (nine in particular) each of which, without its white
space, is shorter than PATH_MAX - 1. -/
theorem pwm_open_too_many_clears (pathMax : Nat) (args : Args)
    (hlen : args.length = ARG_MAX) :
    (∀ (initRc : Nat) (spec : Option (List Char)) (out : OpenOutcome),
        pwm_open pathMax initRc spec args = .returned out →
        out.errmsg = some (.tooManyParameters ARG_MAX) →
        out.nonNull = false ∧ out.args = List.replicate ARG_MAX none)
      ∧ (∀ segs : List (List Char), ARG_MAX < segs.length →
          (∀ s ∈ segs, ',' ∉ s) →
          (∀ s ∈ segs, (squeeze s).length + 1 < pathMax) →
          pwm_open pathMax 0 (some (joinSegments segs)) args
            = .returned { nonNull := false, errmsg := some (.tooManyParameters ARG_MAX),
                          args := List.replicate ARG_MAX none }) := by
  constructor
  · intro initRc spec out hret herr
    unfold pwm_open at hret
    split at hret
    · cases hret
      simp at herr
    · cases spec with
      | none =>
        simp only at hret
        cases hret
        simp at herr
      | some text =>
        simp only at hret
        cases hscan : scan pathMax text { buf := [], argn := 0, args := args } with
        | fault f => rw [hscan] at hret; cases hret
        | done st =>
          rw [hscan] at hret
          simp only at hret
          have hl := scan_args_length pathMax text _ st hscan
          split at hret
          · cases hret
            exact ⟨rfl, free_args_eq st.args (by rw [hl]; exact hlen)⟩
          · cases hret
            simp at herr
  · intro segs hmany hcomma hshort
    obtain ⟨st, hscan, hfull⟩ :=
      scan_too_many pathMax segs 0 args (by decide) (by omega) hcomma hshort
    have hl := scan_args_length pathMax _ _ st hscan
    simp only [pwm_open, hscan, hfull]
    simp [free_args_eq st.args (by rw [hl]; exact hlen)]

/-- Nine short segments on the initial vector are refused and the vector is
cleared. -/
theorem pwm_open_too_many_clears_witness :
    initial_args.length = ARG_MAX
      ∧ pwm_open 4096 0
          (some (joinSegments ["1".toList, "2".toList, "3".toList, "4".toList, "5".toList,
                               "6".toList, "7".toList, "8".toList, "9".toList]))
          initial_args
        = .returned { nonNull := false, errmsg := some (.tooManyParameters ARG_MAX),
                      args := List.replicate ARG_MAX none } :=
  ⟨by decide,
    (pwm_open_too_many_clears 4096 initial_args (by decide)).2
      ["1".toList, "2".toList, "3".toList, "4".toList, "5".toList,
       "6".toList, "7".toList, "8".toList, "9".toList]
      (by decide) (by decide) (by decide)⟩

/-- A run of n copies of a character that is neither white space nor a comma,
with more text behind it, is appended to buf as long as buf has room. -/
theorem scan_plain_run (pathMax : Nat) (c : Char) (hsp : isspace c = false) (hc : c ≠ ',')
    (rest : List Char) (hr : rest ≠ []) :
    ∀ (n : Nat) (st : ScanState), st.buf.length + n ≤ pathMax →
      scan pathMax (List.replicate n c ++ rest) st
        = scan pathMax rest { st with buf := st.buf ++ List.replicate n c } := by
  intro n
  induction n with
  | zero => intro st _; simp
  | succ n ih =>
    intro st hlen
    have hne : List.replicate n c ++ rest ≠ [] := by simp [hr]
    have hroom : st.buf.length < pathMax := by omega
    have hnext : ({ st with buf := st.buf ++ [c] } : ScanState).buf.length + n ≤ pathMax := by
      simp only [List.length_append, List.length_singleton]
      omega
    rw [List.replicate_succ, List.cons_append, scan_plain pathMax c _ st hsp hc hne hroom,
      ih { st with buf := st.buf ++ [c] } hnext]
    simp

/-- A comma met when buf already holds PATH_MAX characters: the terminator of
line 61 is stored outside buf. -/
theorem scan_comma_full (pathMax : Nat) (rest : List Char) (st : ScanState)
    (hfull : pathMax ≤ st.buf.length) :
    scan pathMax (',' :: rest) st = .fault .bufOverflow := by
  by_cases hr : rest = []
  · have hlen : pathMax ≤ st.buf.length + 1 := by omega
    simp [scan, isspace_comma, hr, hlen]
  · simp [scan, isspace_comma, hr, hfull]

/-- A text that starts with a segment of PATH_MAX letters followed by a comma
overflows buf, whatever follows the comma and whatever the vector holds. -/
theorem pwm_open_segment_overflow (pathMax : Nat) (rest : List Char) (args : Args) :
    pwm_open pathMax 0 (some (List.replicate pathMax 'a' ++ ',' :: rest)) args
      = .fault .bufOverflow := by
  have hrun := scan_plain_run pathMax 'a' (by decide) (by decide) (',' :: rest) (by simp)
    pathMax { buf := [], argn := 0, args := args } (by simp)
  have hfull := scan_comma_full pathMax rest
    { buf := [] ++ List.replicate pathMax 'a', argn := 0, args := args } (by simp)
  simp only [pwm_open, hrun, hfull]
  simp

/-- C4 (evaluation at the failing input). With PATH_MAX 4096, a text of nine
segments whose first segment consists of 4096 letters does not come back with
the message for too many parameters and a cleared vector: the terminator of
line 61 is stored at buf[4096], outside buf. The same happens with a buffer of
4 bytes and the nine segments "aaaa", "2", ..., "9". -/
theorem pwm_open_nine_segments_overflow :
    pwm_open 4096 0
        (some (joinSegments [List.replicate 4096 'a', ['2'], ['3'], ['4'], ['5'],
                             ['6'], ['7'], ['8'], ['9']]))
        initial_args
        = .fault .bufOverflow
      ∧ pwm_open 4 0 (some "aaaa,2,3,4,5,6,7,8,9".toList) initial_args
        = .fault .bufOverflow := by
  refine ⟨?_, by decide⟩
  rw [joinSegments_cons_cons]
  exact pwm_open_segment_overflow 4096 _ initial_args

/-- C5 (counterexample). The single segment "a b" is stored in slot 1 as "ab":
the blank inside the segment is lost. -/
theorem pwm_open_interior_space_counterexample :
    pwm_open 4096 0 (some "a b".toList) initial_args
        = .returned { nonNull := true, errmsg := none,
                      args := [some "ab".toList, none, none, none, none, none, none, none] }
      ∧ pwm_open 4096 0 (some "a b".toList) initial_args
        ≠ .returned { nonNull := true, errmsg := none,
                      args := [some "a b".toList, none, none, none, none, none, none, none] } := by
  decide

/-- C5 (amended). For a text that is a single comma-free segment whose last
character is not white space, pwm_open stores in slot 1 the segment with all
of its white space characters removed, and writes no other slot. -/
theorem pwm_open_single_segment (pathMax : Nat) (body : List Char) (c : Char) (args : Args)
    (hcomma : ',' ∉ body ++ [c])
    (hsp : isspace c = false)
    (hshort : (squeeze (body ++ [c])).length < pathMax) :
    pwm_open pathMax 0 (some (body ++ [c])) args
      = .returned { nonNull := true, errmsg := none,
                    args := args.set 0 (some (squeeze (body ++ [c]))) } := by
  have hscan := scan_segments pathMax [body ++ [c]] 0 args ⟨body, c, rfl, hsp⟩
    (by simp [ARG_MAX]) (by simpa using hcomma) (by simpa using hshort)
  rw [joinSegments_single] at hscan
  simp only [pwm_open, hscan]
  simp [storeFrom, ARG_MAX]

/-- C5 (witness). The segment "a b c", stored as "abc". -/
theorem pwm_open_single_segment_witness :
    ',' ∉ "a b ".toList ++ ['c']
      ∧ isspace 'c' = false
      ∧ (squeeze ("a b ".toList ++ ['c'])).length < 4096
      ∧ pwm_open 4096 0 (some ("a b ".toList ++ ['c'])) initial_args
          = .returned { nonNull := true, errmsg := none,
                        args := initial_args.set 0 (some (squeeze ("a b ".toList ++ ['c']))) } :=
  ⟨by decide, by decide, by decide,
    pwm_open_single_segment 4096 "a b ".toList 'c' initial_args
      (by decide) (by decide) (by decide)⟩

/-! ## Facts about the escaping and the query -/

theorem escape_step_eq (e : List Char) (c : Char) :
    escape_step e c = e ++ (if c = '$' ∨ c = '\\' then ['\\', c] else [c]) := by
  unfold escape_step
  split <;> simp

theorem foldl_escape_step (s : List Char) :
    ∀ e : List Char, s.foldl escape_step e = e ++ escape_spec s := by
  induction s with
  | nil => intro e; simp [escape_spec]
  | cons c t ih =>
    intro e
    rw [List.foldl_cons, ih, escape_step_eq]
    simp [escape_spec, List.flatMap_cons]

theorem escape_eq_escape_spec (s : List Char) : escape s = escape_spec s := by
  simp [escape, foldl_escape_step]

/-- A loop that ends with rc zero has just issued a GET, and cmd_result is the
reply given to it. -/
theorem pwm_find_loop_got (E : Env) (h : Nat) (file query : List Char) :
    ∀ (fuel : Nat) (calls : List Call) (r : List Char) (calls2 : List Call),
      pwm_find_loop E h file query fuel calls = some (.got r calls2) →
      ∃ before, calls2 = before ++ [.pwmd_command h query] ∧ r = E.reply before := by
  intro fuel
  induction fuel with
  | zero => intro calls r calls2 hrun; simp [pwm_find_loop] at hrun
  | succ n ih =>
    intro calls r calls2 hrun
    rw [pwm_find_loop] at hrun
    simp only at hrun
    split_ifs at hrun with h1 h2 h3
    · cases hrun
    · exact ih _ r calls2 hrun
    · cases hrun
    · cases hrun
      exact ⟨_, rfl, rfl⟩

/-- The session block never leaves pwm_find with OK. -/
theorem pwm_find_session_failed_ret (E : Env) (pwmd_socket : Option (List Char))
    (args : Args) (handle : Option Nat) (calls : List Call) (ret : ReturnCode)
    (err : FindError) (calls2 : List Call)
    (hs : pwm_find_session E pwmd_socket args handle calls = .failed ret err calls2) :
    ret ≠ .OK := by
  unfold pwm_find_session at hs
  split at hs
  · cases hs
  · simp only at hs
    split_ifs at hs <;> cases hs <;> simp

/-- With pwmd_file set, the flag do_cache is non-zero after pwm_find exactly
when pwm_find returns OK, whatever the flag held before. -/
theorem pwm_find_do_cache_of_file_set (E : Env) (f : Char) (file : List Char)
    (pwmd_socket : Option (List Char)) (args : Args) (fuel : Nat) (handle : Option Nat)
    (calls : List Call) (query : List Char) (do_cache : Nat) (out : FindOutcome)
    (hret : pwm_find E (some (f :: file)) pwmd_socket args fuel handle calls query do_cache
      = some out) :
    out.do_cache ≠ 0 ↔ out.ret = .OK := by
  simp only [pwm_find] at hret
  split at hret
  · rename_i hs
    cases hret
    simpa using pwm_find_session_failed_ret _ _ _ _ _ _ _ _ hs
  · split at hret
    · cases hret
    · cases hret; simp
    · split_ifs at hret <;> cases hret <;> simp

/-- A session block that reaches the loop has added no pwmd_open, no
pwmd_command and no sleep to the calls. -/
theorem pwm_find_session_ready_calls (E : Env) (pwmd_socket : Option (List Char))
    (args : Args) (handle : Option Nat) (calls : List Call) (h : Nat) (calls1 : List Call)
    (hs : pwm_find_session E pwmd_socket args handle calls = .ready h calls1) :
    ∃ setup, calls1 = calls ++ setup ∧ setup.countP Call.isOpen = 0
      ∧ setup.countP Call.isCommand = 0 ∧ setup.countP Call.isSleep = 0 := by
  unfold pwm_find_session at hs
  split at hs
  · cases hs
    exact ⟨[], by simp, rfl, rfl, rfl⟩
  · simp only at hs
    split_ifs at hs
    cases hs
    exact ⟨[.pwmd_new, .pwmd_setopt (E.new_handle calls) .LOCK_ON_OPEN 0,
      .pwmd_connect (E.new_handle calls) pwmd_socket args,
      .pwmd_setopt (E.new_handle calls) .LOCK_TIMEOUT 100], by simp, rfl, rfl, rfl⟩

/-- The loop against a transport whose pwmd_open succeeds and whose GET reports
the checksum code until base GET commands have been issued, and then
succeeds: started with m such commands still to fail, it ends with rc zero
after m + 1 rounds and m sleeps of one second. -/
theorem pwm_find_loop_stale (E : Env) (h : Nat) (file query : List Char) (base : Nat)
    (hopen : ∀ c, E.rc c (.pwmd_open h file) = 0)
    (hstale : ∀ c, c.countP Call.isCommand < base →
      gpg_err_code (E.rc c (.pwmd_command h query)) = GPG_ERR_CHECKSUM)
    (hthen : ∀ c, c.countP Call.isCommand = base → E.rc c (.pwmd_command h query) = 0) :
    ∀ (m : Nat) (calls : List Call), calls.countP Call.isCommand + m = base →
      ∃ r rounds,
        (∀ fuel, m + 1 ≤ fuel →
          pwm_find_loop E h file query fuel calls = some (.got r (calls ++ rounds)))
        ∧ rounds.countP Call.isOpen = m + 1 ∧ rounds.countP Call.isCommand = m + 1
        ∧ rounds.countP Call.isSleep = m ∧ rounds.count (.sleep 1) = m := by
  intro m
  induction m with
  | zero =>
    intro calls hbase
    have hcmd := hthen (calls ++ [.pwmd_open h file]) (by simpa [Call.isCommand] using hbase)
    refine ⟨E.reply (calls ++ [.pwmd_open h file]),
      [.pwmd_open h file, .pwmd_command h query], ?_, rfl, rfl, rfl, rfl⟩
    intro fuel hfuel
    obtain ⟨n, rfl⟩ : ∃ n, fuel = n + 1 := ⟨fuel - 1, by omega⟩
    simp [pwm_find_loop, hopen, hcmd, gpg_err_code, GPG_ERR_CHECKSUM]
  | succ m ih =>
    intro calls hbase
    have hcmd := hstale (calls ++ [.pwmd_open h file])
      (by simp [Call.isCommand]; omega)
    obtain ⟨r, rounds, hrun, ho, hc, hs, hs1⟩ :=
      ih (calls ++ [.pwmd_open h file] ++ [.pwmd_command h query] ++ [.sleep 1])
        (by simp [Call.isCommand]; omega)
    refine ⟨r, [.pwmd_open h file, .pwmd_command h query, .sleep 1] ++ rounds, ?_, ?_, ?_, ?_, ?_⟩
    · intro fuel hfuel
      obtain ⟨n, rfl⟩ : ∃ n, fuel = n + 1 := ⟨fuel - 1, by omega⟩
      have := hrun n (by omega)
      simp only [pwm_find_loop, hopen, hcmd, ne_eq, not_true_eq_false, if_false, if_true]
      simpa using this
    · simp [List.countP_cons, Call.isOpen, ho]
    · simp [List.countP_cons, Call.isCommand, hc]
    · simp [List.countP_cons, Call.isSleep, hs]
    · simp [List.count_cons, hs1]

/-! ## The query claims -/

/-- C2. The escaping loop of pwm_find computes, for every text, the
concatenation over its characters of backslash and character for a dollar sign
or a backslash, and of the character alone otherwise; the five characters
a $ b \ c become the seven characters a \ $ b \ \ c; and whenever pwm_find
returns OK, the text stored through result is that escaping of the reply to
the last GET command. -/
theorem pwm_find_escapes_reply :
    (∀ s : List Char, escape s = escape_spec s)
      ∧ escape ['a', '$', 'b', '\\', 'c'] = ['a', '\\', '$', 'b', '\\', '\\', 'c']
      ∧ (∀ (E : Env) (pwmd_file pwmd_socket : Option (List Char)) (args : Args)
          (fuel : Nat) (handle : Option Nat) (calls : List Call) (query : List Char)
          (do_cache : Nat) (out : FindOutcome),
          pwm_find E pwmd_file pwmd_socket args fuel handle calls query do_cache = some out →
          out.ret = .OK →
          ∃ h before,
            out.calls = before ++ [.pwmd_command h query,
                                   .store_get ((E.reply before).length * 2 + 1), .pwmd_free]
            ∧ out.result = some (escape_spec (E.reply before))) := by
  refine ⟨escape_eq_escape_spec, by decide, ?_⟩
  intro E pwmd_file pwmd_socket args fuel handle calls query do_cache out hret hok
  unfold pwm_find at hret
  split at hret
  · cases hret; cases hok
  · cases hret; cases hok
  · split at hret
    · rename_i hs
      cases hret
      exact absurd hok (pwm_find_session_failed_ret _ _ _ _ _ _ _ _ hs)
    · rename_i h calls1 hs
      split at hret
      · cases hret
      · cases hret; cases hok
      · rename_i r calls2 hloop
        obtain ⟨before, hc, hr⟩ := pwm_find_loop_got E h _ query fuel calls1 r calls2 hloop
        simp only at hret
        split_ifs at hret
        · cases hret; cases hok
        · cases hret
          refine ⟨h, before, ?_, ?_⟩
          · simp [hc, hr]
          · simp [hr, escape_eq_escape_spec]

/-- C2 (witness). On a transport where every call succeeds and the GET is
answered with a $ b \ c, pwm_find returns OK with the seven characters. -/
theorem pwm_find_escapes_reply_witness :
    ∃ h before,
      [Call.pwmd_open 1 ['f'], .pwmd_command 1 ['k'], .store_get 11, .pwmd_free]
          = before ++ [.pwmd_command h ['k'],
               .store_get (((steadyEnv ['a', '$', 'b', '\\', 'c']).reply before).length * 2 + 1),
               .pwmd_free]
        ∧ some ['a', '\\', '$', 'b', '\\', '\\', 'c']
          = some (escape_spec ((steadyEnv ['a', '$', 'b', '\\', 'c']).reply before)) :=
  pwm_find_escapes_reply.2.2 (steadyEnv ['a', '$', 'b', '\\', 'c']) (some ['f']) none
    initial_args 1 (some 1) [] ['k'] 0
    { ret := .OK, result := some ['a', '\\', '$', 'b', '\\', '\\', 'c'], errmsg := none,
      do_cache := 1, handle := some 1,
      calls := [.pwmd_open 1 ['f'], .pwmd_command 1 ['k'], .store_get 11, .pwmd_free] }
    (by decide) rfl

/-- C6. With pwmd_file unset or empty, pwm_find returns FAIL for every query,
handle and transport, makes no call at all, leaves the handle as it was (and
stores nothing through result). -/
theorem pwm_find_file_not_set (E : Env) (pwmd_file pwmd_socket : Option (List Char))
    (args : Args) (fuel : Nat) (handle : Option Nat) (calls : List Call)
    (query : List Char) (do_cache : Nat)
    (hfile : pwmd_file = none ∨ pwmd_file = some []) :
    pwm_find E pwmd_file pwmd_socket args fuel handle calls query do_cache
      = some { ret := .FAIL, result := none, errmsg := some .fileNotSet,
               do_cache := do_cache, handle := handle, calls := calls } := by
  rcases hfile with h | h <;> subst h <;> rfl

/-- C6 (witness). An empty pwmd_file with a live handle and earlier calls. -/
theorem pwm_find_file_not_set_witness :
    ((some [] : Option (List Char)) = none ∨ (some [] : Option (List Char)) = some [])
      ∧ pwm_find (steadyEnv ['v']) (some []) none initial_args 0 (some 5)
          [.pwmd_new] ['k'] 0
        = some { ret := .FAIL, result := none, errmsg := some .fileNotSet,
                 do_cache := 0, handle := some 5, calls := [.pwmd_new] } :=
  ⟨Or.inr rfl,
    pwm_find_file_not_set (steadyEnv ['v']) (some []) none initial_args 0 (some 5)
      [.pwmd_new] ['k'] 0 (Or.inr rfl)⟩

/-- C7 (evaluation at the failing input). With pwmd_file unset (or empty) and
the flag do_cache holding 1 on entry, pwm_find returns FAIL and the flag still
holds 1: the return of line 108 comes before the flag is reset on line 111. -/
theorem pwm_find_file_not_set_keeps_do_cache :
    pwm_find (steadyEnv ['v']) none none initial_args 1 none [] ['k'] 1
        = some { ret := .FAIL, result := none, errmsg := some .fileNotSet,
                 do_cache := 1, handle := none, calls := [] }
      ∧ pwm_find (steadyEnv ['v']) (some []) none initial_args 1 none [] ['k'] 1
        = some { ret := .FAIL, result := none, errmsg := some .fileNotSet,
                 do_cache := 1, handle := none, calls := [] } := by
  decide

/-- C8. Given a session (live, or built by this call) and a transport whose
pwmd_open always succeeds and whose GET reports the checksum code on exactly
the first k rounds of this call and succeeds on the next, with the escape
buffer granted, pwm_find returns OK for every fuel of at least k + 1, having
issued exactly k + 1 pwmd_open calls, k + 1 pwmd_command calls and k sleeps,
each of one second; this holds for every k. -/
theorem pwm_find_stale_retry (E : Env) (k : Nat) (f : Char) (file : List Char)
    (pwmd_socket : Option (List Char)) (args : Args) (handle : Option Nat)
    (calls : List Call) (query : List Char) (do_cache : Nat) (h : Nat) (calls1 : List Call)
    (hsess : pwm_find_session E pwmd_socket args handle calls = .ready h calls1)
    (hopen : ∀ c, E.rc c (.pwmd_open h (f :: file)) = 0)
    (hstale : ∀ c, c.countP Call.isCommand < calls.countP Call.isCommand + k →
      gpg_err_code (E.rc c (.pwmd_command h query)) = GPG_ERR_CHECKSUM)
    (hthen : ∀ c, c.countP Call.isCommand = calls.countP Call.isCommand + k →
      E.rc c (.pwmd_command h query) = 0)
    (halloc : ∀ c, E.store_get_ok c = true) :
    ∃ out issued,
      (∀ fuel, k + 1 ≤ fuel →
        pwm_find E (some (f :: file)) pwmd_socket args fuel handle calls query do_cache
          = some out)
      ∧ out.ret = .OK ∧ out.do_cache = 1 ∧ out.handle = some h
      ∧ out.calls = calls ++ issued
      ∧ issued.countP Call.isOpen = k + 1
      ∧ issued.countP Call.isCommand = k + 1
      ∧ issued.countP Call.isSleep = k
      ∧ issued.count (.sleep 1) = k := by
  obtain ⟨setup, hc1, so, sc, ss⟩ :=
    pwm_find_session_ready_calls E pwmd_socket args handle calls h calls1 hsess
  have hcount : calls1.countP Call.isCommand = calls.countP Call.isCommand := by
    rw [hc1, List.countP_append, sc, Nat.add_zero]
  obtain ⟨r, rounds, hrun, ho, hc, hs, hs1⟩ :=
    pwm_find_loop_stale E h (f :: file) query (calls.countP Call.isCommand + k)
      hopen hstale hthen k calls1 (by rw [hcount])
  refine ⟨{ ret := .OK, result := some (escape r), errmsg := none, do_cache := 1,
            handle := some h,
            calls := calls1 ++ rounds ++ [.store_get (r.length * 2 + 1)] ++ [.pwmd_free] },
    setup ++ rounds ++ [.store_get (r.length * 2 + 1), .pwmd_free], ?_, rfl, rfl, rfl, ?_,
    ?_, ?_, ?_, ?_⟩
  · intro fuel hfuel
    simp [pwm_find, hsess, hrun fuel hfuel, halloc]
  · simp [hc1]
  · simp [List.countP_append, so, ho, Call.isOpen]
  · simp [List.countP_append, sc, hc, Call.isCommand]
  · simp [List.countP_append, ss, hs, Call.isSleep]
  · have hz : setup.count (.sleep 1) = 0 := by
      rw [List.count_eq_zero]
      intro hmem
      have : 0 < setup.countP Call.isSleep := List.countP_pos_iff.mpr ⟨_, hmem, rfl⟩
      omega
    simp [List.count_append, hz, hs1]

/-- C8 (witness). A live handle and a transport whose GET fails with the
checksum code twice: three rounds and two sleeps. -/
theorem pwm_find_stale_retry_witness :
    pwm_find_session (staleEnv 2 ['v']) none initial_args (some 1) [] = .ready 1 []
      ∧ (∀ c, (staleEnv 2 ['v']).rc c (.pwmd_open 1 ['f']) = 0)
      ∧ (∀ c, c.countP Call.isCommand < ([] : List Call).countP Call.isCommand + 2 →
          gpg_err_code ((staleEnv 2 ['v']).rc c (.pwmd_command 1 ['k'])) = GPG_ERR_CHECKSUM)
      ∧ (∀ c, c.countP Call.isCommand = ([] : List Call).countP Call.isCommand + 2 →
          (staleEnv 2 ['v']).rc c (.pwmd_command 1 ['k']) = 0)
      ∧ (∀ c, (staleEnv 2 ['v']).store_get_ok c = true)
      ∧ ∃ out issued,
          (∀ fuel, 2 + 1 ≤ fuel →
            pwm_find (staleEnv 2 ['v']) (some ['f']) none initial_args fuel (some 1) [] ['k'] 0
              = some out)
          ∧ out.ret = .OK ∧ out.do_cache = 1 ∧ out.handle = some 1
          ∧ out.calls = [] ++ issued
          ∧ issued.countP Call.isOpen = 2 + 1
          ∧ issued.countP Call.isCommand = 2 + 1
          ∧ issued.countP Call.isSleep = 2
          ∧ issued.count (.sleep 1) = 2 :=
  have h1 : ∀ c, (staleEnv 2 ['v']).rc c (.pwmd_open 1 ['f']) = 0 := fun _ => rfl
  have h2 : ∀ c, c.countP Call.isCommand < ([] : List Call).countP Call.isCommand + 2 →
      gpg_err_code ((staleEnv 2 ['v']).rc c (.pwmd_command 1 ['k'])) = GPG_ERR_CHECKSUM := by
    intro c hc
    simp only [List.countP_nil, Nat.zero_add] at hc
    simp [staleEnv, Call.isCommand, hc, gpg_err_code, GPG_ERR_CHECKSUM]
  have h3 : ∀ c, c.countP Call.isCommand = ([] : List Call).countP Call.isCommand + 2 →
      (staleEnv 2 ['v']).rc c (.pwmd_command 1 ['k']) = 0 := by
    intro c hc
    simp only [List.countP_nil, Nat.zero_add] at hc
    simp [staleEnv, Call.isCommand, hc]
  have h4 : ∀ c, (staleEnv 2 ['v']).store_get_ok c = true := fun _ => rfl
  ⟨rfl, h1, h2, h3, h4,
    pwm_find_stale_retry (staleEnv 2 ['v']) 2 'f' [] none initial_args (some 1) [] ['k'] 0 1 []
      rfl h1 h2 h3 h4⟩

/-- C9 (counterexample). On a transport whose first pwmd_open reports the
checksum code and whose every other call succeeds, pwm_find returns DEFER
after that single pwmd_open: no sleep, no second pwmd_open, no GET. This holds
with a live handle and with a handle built by the call. -/
theorem pwm_find_stale_open_counterexample :
    pwm_find (staleOpenEnv ['v']) (some ['f']) none initial_args 5 (some 1) [] ['k'] 0
        = some { ret := .DEFER, result := none, errmsg := some (.deferring GPG_ERR_CHECKSUM),
                 do_cache := 0, handle := some 1, calls := [.pwmd_open 1 ['f']] }
      ∧ pwm_find (staleOpenEnv ['v']) (some ['f']) none initial_args 5 none [] ['k'] 0
        = some { ret := .DEFER, result := none, errmsg := some (.deferring GPG_ERR_CHECKSUM),
                 do_cache := 0, handle := some 1,
                 calls := [.pwmd_new, .pwmd_setopt 1 .LOCK_ON_OPEN 0,
                           .pwmd_connect 1 none initial_args,
                           .pwmd_setopt 1 .LOCK_TIMEOUT 100, .pwmd_open 1 ['f']] } := by
  decide

/-- C9 (amended). The checksum code is retried only when pwmd_command reports
it. When the first pwmd_open of a call reports it (as for any other non-zero
code of pwmd_open), pwm_find makes no further call, neither sleep nor
pwmd_open nor pwmd_command, and returns DEFER with that code in the message,
keeping the handle. -/
theorem pwm_find_stale_open_defers (E : Env) (f : Char) (file : List Char)
    (pwmd_socket : Option (List Char)) (args : Args) (fuel : Nat) (handle : Option Nat)
    (calls : List Call) (query : List Char) (do_cache : Nat) (h : Nat) (calls1 : List Call)
    (hsess : pwm_find_session E pwmd_socket args handle calls = .ready h calls1)
    (hstale : gpg_err_code (E.rc calls1 (.pwmd_open h (f :: file))) = GPG_ERR_CHECKSUM)
    (hfuel : 1 ≤ fuel) :
    pwm_find E (some (f :: file)) pwmd_socket args fuel handle calls query do_cache
      = some { ret := .DEFER, result := none,
               errmsg := some (.deferring (E.rc calls1 (.pwmd_open h (f :: file)))),
               do_cache := 0, handle := some h,
               calls := calls1 ++ [.pwmd_open h (f :: file)] } := by
  obtain ⟨n, rfl⟩ : ∃ n, fuel = n + 1 := ⟨fuel - 1, by omega⟩
  have hne : E.rc calls1 (.pwmd_open h (f :: file)) ≠ 0 := by
    intro h0
    rw [h0] at hstale
    simp [gpg_err_code, GPG_ERR_CHECKSUM] at hstale
  simp [pwm_find, hsess, pwm_find_loop, hne]

/-- C9 (witness). The transport whose first pwmd_open reports the checksum
code, with a live handle. -/
theorem pwm_find_stale_open_defers_witness :
    pwm_find_session (staleOpenEnv ['v']) none initial_args (some 1) [] = .ready 1 []
      ∧ gpg_err_code ((staleOpenEnv ['v']).rc [] (.pwmd_open 1 ['f'])) = GPG_ERR_CHECKSUM
      ∧ 1 ≤ 4
      ∧ pwm_find (staleOpenEnv ['v']) (some ['f']) none initial_args 4 (some 1) [] ['k'] 0
        = some { ret := .DEFER, result := none,
                 errmsg := some (.deferring ((staleOpenEnv ['v']).rc [] (.pwmd_open 1 ['f']))),
                 do_cache := 0, handle := some 1,
                 calls := [] ++ [.pwmd_open 1 ['f']] } :=
  ⟨rfl, by decide, by decide,
    pwm_find_stale_open_defers (staleOpenEnv ['v']) 'f' [] none initial_args 4 (some 1) []
      ['k'] 0 1 [] rfl (by decide) (by decide)⟩

/-- C10. Starting without a handle on a transport where every call succeeds
and the escape buffer is granted, two pwm_find calls in a row for the same
file and query both return OK. The first issues pwmd_new, pwmd_setopt (lock on
open), pwmd_connect, pwmd_setopt (lock timeout), pwmd_open, pwmd_command (and
the store and free calls); the second finds the handle and issues pwmd_open
and pwmd_command only: one pwmd_new, one pwmd_connect, two pwmd_open and two
pwmd_command calls in all. -/
theorem pwm_find_session_reuse (E : Env) (f : Char) (file : List Char)
    (pwmd_socket : Option (List Char)) (args : Args) (calls : List Call)
    (query : List Char) (fuel1 fuel2 do_cache1 do_cache2 : Nat)
    (hok : ∀ c call, E.rc c call = 0)
    (halloc : ∀ c, E.store_get_ok c = true)
    (hfuel1 : 1 ≤ fuel1) (hfuel2 : 1 ≤ fuel2) :
    ∃ out1 out2 h n1 n2,
      pwm_find E (some (f :: file)) pwmd_socket args fuel1 none calls query do_cache1
          = some out1
      ∧ pwm_find E (some (f :: file)) pwmd_socket args fuel2 out1.handle out1.calls query
            do_cache2
          = some out2
      ∧ out1.ret = .OK ∧ out2.ret = .OK
      ∧ out1.handle = some h ∧ out2.handle = some h
      ∧ out1.calls = calls ++
          [.pwmd_new, .pwmd_setopt h .LOCK_ON_OPEN 0, .pwmd_connect h pwmd_socket args,
           .pwmd_setopt h .LOCK_TIMEOUT 100,
           .pwmd_open h (f :: file), .pwmd_command h query, .store_get n1, .pwmd_free]
      ∧ out2.calls = out1.calls ++
          [.pwmd_open h (f :: file), .pwmd_command h query, .store_get n2, .pwmd_free] := by
  obtain ⟨a, rfl⟩ : ∃ n, fuel1 = n + 1 := ⟨fuel1 - 1, by omega⟩
  obtain ⟨b, rfl⟩ : ∃ n, fuel2 = n + 1 := ⟨fuel2 - 1, by omega⟩
  simp [pwm_find, pwm_find_session, pwm_find_loop, hok, halloc, gpg_err_code,
    GPG_ERR_CHECKSUM]

/-- C10 (witness). Two lookups of the key k in the file f on the transport
where every call succeeds. -/
theorem pwm_find_session_reuse_witness :
    (∀ c call, (steadyEnv ['v']).rc c call = 0)
      ∧ (∀ c, (steadyEnv ['v']).store_get_ok c = true)
      ∧ 1 ≤ 1 ∧ 1 ≤ 2
      ∧ ∃ out1 out2 h n1 n2,
          pwm_find (steadyEnv ['v']) (some ['f']) none initial_args 1 none [] ['k'] 0
              = some out1
          ∧ pwm_find (steadyEnv ['v']) (some ['f']) none initial_args 2 out1.handle out1.calls
                ['k'] 0
              = some out2
          ∧ out1.ret = .OK ∧ out2.ret = .OK
          ∧ out1.handle = some h ∧ out2.handle = some h
          ∧ out1.calls = [] ++
              [.pwmd_new, .pwmd_setopt h .LOCK_ON_OPEN 0, .pwmd_connect h none initial_args,
               .pwmd_setopt h .LOCK_TIMEOUT 100,
               .pwmd_open h ['f'], .pwmd_command h ['k'], .store_get n1, .pwmd_free]
          ∧ out2.calls = out1.calls ++
              [.pwmd_open h ['f'], .pwmd_command h ['k'], .store_get n2, .pwmd_free] :=
  ⟨fun _ _ => rfl, fun _ => rfl, by decide, by decide,
    pwm_find_session_reuse (steadyEnv ['v']) 'f' [] none initial_args [] ['k'] 1 2 0 0
      (fun _ _ => rfl) (fun _ => rfl) (by decide) (by decide)⟩

/-! ## Facts about the session block and the rounds of the loop -/

/-- The four ways the session block ends pwm_find: DEFER after pwmd_new, FAIL
after the first pwmd_setopt, DEFER after pwmd_connect and after the second
pwmd_setopt. -/
theorem pwm_find_session_failed_cases (E : Env) (pwmd_socket : Option (List Char))
    (args : Args) (handle : Option Nat) (calls : List Call) (ret : ReturnCode)
    (err : FindError) (calls2 : List Call)
    (hs : pwm_find_session E pwmd_socket args handle calls = .failed ret err calls2) :
    (∃ rc, err = .newFailed rc ∧ ret = .DEFER)
      ∨ (∃ rc, err = .setoptFailed rc ∧ ret = .FAIL)
      ∨ (∃ rc, err = .connectFailed rc ∧ ret = .DEFER)
      ∨ (∃ rc, err = .lockTimeoutFailed rc ∧ ret = .DEFER) := by
  unfold pwm_find_session at hs
  split at hs
  · cases hs
  · simp only at hs
    split_ifs at hs <;> cases hs <;> simp

/-- Rounds that end in a retry only move the loop on: when each of the first j
rounds sees pwmd_open succeed and pwmd_command report the checksum code, the
loop with j more units of fuel behaves as the loop started behind them. -/
theorem pwm_find_loop_after_rounds (E : Env) (h : Nat) (file query : List Char) :
    ∀ (j : Nat) (calls : List Call),
      (∀ i, i < j →
        E.rc (calls ++ staleRounds h file query i) (.pwmd_open h file) = 0
        ∧ gpg_err_code (E.rc (calls ++ staleRounds h file query i ++ [.pwmd_open h file])
            (.pwmd_command h query)) = GPG_ERR_CHECKSUM) →
      ∀ fuel, pwm_find_loop E h file query (j + fuel) calls
        = pwm_find_loop E h file query fuel (calls ++ staleRounds h file query j) := by
  intro j
  induction j with
  | zero => intro calls _ fuel; simp [staleRounds]
  | succ j ih =>
    intro calls hrounds fuel
    obtain ⟨ho, hc⟩ := hrounds 0 (by omega)
    simp only [staleRounds, List.append_nil] at ho hc
    have hstep : j + 1 + fuel = (j + fuel) + 1 := by omega
    rw [hstep, pwm_find_loop]
    simp only [ho, hc, ne_eq, not_true_eq_false, if_false, if_true]
    rw [ih (calls ++ [Call.pwmd_open h file] ++ [Call.pwmd_command h query] ++ [Call.sleep 1])]
    · simp [staleRounds]
    · intro i hi
      have := hrounds (i + 1) (by omega)
      simpa [staleRounds] using this

/-- C11 (evaluation at the failing input). Without a handle, on a transport
whose pwmd_new succeeds and whose pwmd_setopt for lock-on-open returns the
code 3, pwm_find returns FAIL (line 129), not DEFER; when instead pwmd_new,
pwmd_connect or the pwmd_setopt for the lock timeout returns 3, it returns
DEFER. -/
theorem pwm_find_lock_on_open_failure_fails :
    pwm_find (scriptEnv [0, 3]) (some ['f']) none initial_args 1 none [] ['k'] 0
        = some { ret := .FAIL, result := none, errmsg := some (.setoptFailed 3),
                 do_cache := 0, handle := none,
                 calls := [.pwmd_new, .pwmd_setopt 1 .LOCK_ON_OPEN 0, .pwmd_close (some 1)] }
      ∧ (pwm_find (scriptEnv [3]) (some ['f']) none initial_args 1 none [] ['k'] 0).map
          (fun out => out.ret) = some .DEFER
      ∧ (pwm_find (scriptEnv [0, 0, 3]) (some ['f']) none initial_args 1 none [] ['k'] 0).map
          (fun out => out.ret) = some .DEFER
      ∧ (pwm_find (scriptEnv [0, 0, 0, 3]) (some ['f']) none initial_args 1 none [] ['k'] 0).map
          (fun out => out.ret) = some .DEFER := by
  decide

/-- C12. In whatever round of the loop it happens (after j rounds that ended
in a retry): when pwmd_open returns a non-zero code, or pwmd_open succeeds and
pwmd_command returns a non-zero code other than the checksum code, pwm_find
returns DEFER with that code, and the failing call is the last call it makes:
no further pwmd_open or pwmd_command, no sleep. -/
theorem pwm_find_other_error_defers (E : Env) (j : Nat) (f : Char) (file : List Char)
    (pwmd_socket : Option (List Char)) (args : Args) (fuel : Nat) (handle : Option Nat)
    (calls : List Call) (query : List Char) (do_cache : Nat) (h : Nat) (calls1 : List Call)
    (hsess : pwm_find_session E pwmd_socket args handle calls = .ready h calls1)
    (hrounds : ∀ i, i < j →
      E.rc (calls1 ++ staleRounds h (f :: file) query i) (.pwmd_open h (f :: file)) = 0
      ∧ gpg_err_code (E.rc (calls1 ++ staleRounds h (f :: file) query i
            ++ [.pwmd_open h (f :: file)]) (.pwmd_command h query)) = GPG_ERR_CHECKSUM)
    (hfuel : j + 1 ≤ fuel) :
    (E.rc (calls1 ++ staleRounds h (f :: file) query j) (.pwmd_open h (f :: file)) ≠ 0 →
      pwm_find E (some (f :: file)) pwmd_socket args fuel handle calls query do_cache
        = some { ret := .DEFER, result := none,
                 errmsg := some (.deferring
                   (E.rc (calls1 ++ staleRounds h (f :: file) query j)
                     (.pwmd_open h (f :: file)))),
                 do_cache := 0, handle := some h,
                 calls := calls1 ++ staleRounds h (f :: file) query j
                            ++ [.pwmd_open h (f :: file)] })
      ∧ (E.rc (calls1 ++ staleRounds h (f :: file) query j) (.pwmd_open h (f :: file)) = 0 →
          E.rc (calls1 ++ staleRounds h (f :: file) query j ++ [.pwmd_open h (f :: file)])
            (.pwmd_command h query) ≠ 0 →
          gpg_err_code
            (E.rc (calls1 ++ staleRounds h (f :: file) query j ++ [.pwmd_open h (f :: file)])
              (.pwmd_command h query)) ≠ GPG_ERR_CHECKSUM →
          pwm_find E (some (f :: file)) pwmd_socket args fuel handle calls query do_cache
            = some { ret := .DEFER, result := none,
                     errmsg := some (.deferring
                       (E.rc (calls1 ++ staleRounds h (f :: file) query j
                           ++ [.pwmd_open h (f :: file)]) (.pwmd_command h query))),
                     do_cache := 0, handle := some h,
                     calls := calls1 ++ staleRounds h (f :: file) query j
                                ++ [.pwmd_open h (f :: file), .pwmd_command h query] }) := by
  obtain ⟨n, rfl⟩ : ∃ n, fuel = j + (n + 1) := ⟨fuel - j - 1, by omega⟩
  have hloop := pwm_find_loop_after_rounds E h (f :: file) query j calls1 hrounds (n + 1)
  constructor
  · intro hopen
    simp only [pwm_find, hsess]
    rw [hloop]
    simp [pwm_find_loop, hopen]
  · intro hopen hcmd hcode
    simp only [pwm_find, hsess]
    rw [hloop]
    simp only [List.append_assoc] at hcmd hcode
    simp [pwm_find_loop, hopen, hcmd, hcode]

/-- C12 (witness). A live handle; the first GET reports the checksum code, the
second GET returns the code 7: DEFER after open, GET, sleep, open, GET. -/
theorem pwm_find_other_error_defers_witness :
    pwm_find_session (scriptEnv [0, 10, 0, 0, 7]) none initial_args (some 1) [] = .ready 1 []
      ∧ (∀ i, i < 1 →
          (scriptEnv [0, 10, 0, 0, 7]).rc ([] ++ staleRounds 1 ['f'] ['k'] i)
              (.pwmd_open 1 ['f']) = 0
          ∧ gpg_err_code ((scriptEnv [0, 10, 0, 0, 7]).rc
              ([] ++ staleRounds 1 ['f'] ['k'] i ++ [.pwmd_open 1 ['f']])
              (.pwmd_command 1 ['k'])) = GPG_ERR_CHECKSUM)
      ∧ 1 + 1 ≤ 2
      ∧ pwm_find (scriptEnv [0, 10, 0, 0, 7]) (some ['f']) none initial_args 2 (some 1) []
            ['k'] 0
          = some { ret := .DEFER, result := none,
                   errmsg := some (.deferring
                     ((scriptEnv [0, 10, 0, 0, 7]).rc
                       ([] ++ staleRounds 1 ['f'] ['k'] 1 ++ [.pwmd_open 1 ['f']])
                       (.pwmd_command 1 ['k']))),
                   do_cache := 0, handle := some 1,
                   calls := [] ++ staleRounds 1 ['f'] ['k'] 1
                              ++ [.pwmd_open 1 ['f'], .pwmd_command 1 ['k']] } :=
  have hr : ∀ i, i < 1 →
      (scriptEnv [0, 10, 0, 0, 7]).rc ([] ++ staleRounds 1 ['f'] ['k'] i)
          (.pwmd_open 1 ['f']) = 0
      ∧ gpg_err_code ((scriptEnv [0, 10, 0, 0, 7]).rc
          ([] ++ staleRounds 1 ['f'] ['k'] i ++ [.pwmd_open 1 ['f']])
          (.pwmd_command 1 ['k'])) = GPG_ERR_CHECKSUM := by
    intro i hi
    obtain rfl : i = 0 := by omega
    decide
  ⟨rfl, hr, by decide,
    (pwm_find_other_error_defers (scriptEnv [0, 10, 0, 0, 7]) 1 'f' [] none initial_args 2
      (some 1) [] ['k'] 0 1 [] rfl hr (by decide)).2 (by decide) (by decide) (by decide)⟩

/-- The loop only adds calls behind those made before it. -/
theorem pwm_find_loop_calls (E : Env) (h : Nat) (file query : List Char) :
    ∀ (fuel : Nat) (calls : List Call),
      (∀ rc calls2, pwm_find_loop E h file query fuel calls = some (.failed rc calls2) →
        ∃ more, calls2 = calls ++ more)
      ∧ (∀ r calls2, pwm_find_loop E h file query fuel calls = some (.got r calls2) →
        ∃ more, calls2 = calls ++ more) := by
  intro fuel
  induction fuel with
  | zero => intro calls; simp [pwm_find_loop]
  | succ n ih =>
    intro calls
    constructor
    · intro rc calls2 hrun
      rw [pwm_find_loop] at hrun
      simp only at hrun
      split_ifs at hrun
      · cases hrun
        exact ⟨_, rfl⟩
      · obtain ⟨more, hm⟩ := (ih _).1 rc calls2 hrun
        exact ⟨[Call.pwmd_open h file, Call.pwmd_command h query, Call.sleep 1] ++ more,
          by rw [hm]; simp⟩
      · cases hrun
        exact ⟨[Call.pwmd_open h file, Call.pwmd_command h query], by simp⟩
      · cases hrun
    · intro r calls2 hrun
      rw [pwm_find_loop] at hrun
      simp only at hrun
      split_ifs at hrun
      · cases hrun
      · obtain ⟨more, hm⟩ := (ih _).2 r calls2 hrun
        exact ⟨[Call.pwmd_open h file, Call.pwmd_command h query, Call.sleep 1] ++ more,
          by rw [hm]; simp⟩
      · cases hrun
      · cases hrun
        exact ⟨[Call.pwmd_open h file, Call.pwmd_command h query], by simp⟩

/-- A pwm_find that starts without a handle, and returns, has made pwmd_new
its first call. -/
theorem pwm_find_fresh_starts_with_new (E : Env) (f : Char) (file : List Char)
    (pwmd_socket : Option (List Char)) (args : Args) (fuel : Nat) (calls : List Call)
    (query : List Char) (do_cache : Nat) (out : FindOutcome)
    (hret : pwm_find E (some (f :: file)) pwmd_socket args fuel none calls query do_cache
      = some out) :
    ∃ rest, out.calls = calls ++ .pwmd_new :: rest := by
  simp only [pwm_find] at hret
  split at hret
  · rename_i ret err calls2 hs
    cases hret
    simp only [pwm_find_session] at hs
    split_ifs at hs <;> cases hs <;> simp
  · rename_i h calls1 hs
    have hc1 : ∃ pre, calls1 = calls ++ .pwmd_new :: pre := by
      simp only [pwm_find_session] at hs
      split_ifs at hs
      cases hs
      simp
    obtain ⟨pre, rfl⟩ := hc1
    split at hret
    · cases hret
    · rename_i rc calls2 hloop
      cases hret
      obtain ⟨more, rfl⟩ := (pwm_find_loop_calls E h _ query fuel _).1 rc calls2 hloop
      exact ⟨pre ++ more, by simp⟩
    · rename_i r calls2 hloop
      obtain ⟨more, rfl⟩ := (pwm_find_loop_calls E h _ query fuel _).2 r calls2 hloop
      split_ifs at hret <;> cases hret <;> simp

/-- Without a handle and with all four steps succeeding, the session block
issues exactly the four calls of the handshake. -/
theorem pwm_find_session_fresh (E : Env) (pwmd_socket : Option (List Char)) (args : Args)
    (calls : List Call)
    (h0 : E.rc calls .pwmd_new = 0)
    (h1 : E.rc (calls ++ [.pwmd_new]) (.pwmd_setopt (E.new_handle calls) .LOCK_ON_OPEN 0) = 0)
    (h2 : E.rc (calls ++ [.pwmd_new, .pwmd_setopt (E.new_handle calls) .LOCK_ON_OPEN 0])
      (.pwmd_connect (E.new_handle calls) pwmd_socket args) = 0)
    (h3 : E.rc (calls ++ [.pwmd_new, .pwmd_setopt (E.new_handle calls) .LOCK_ON_OPEN 0,
        .pwmd_connect (E.new_handle calls) pwmd_socket args])
      (.pwmd_setopt (E.new_handle calls) .LOCK_TIMEOUT 100) = 0) :
    pwm_find_session E pwmd_socket args none calls
      = .ready (E.new_handle calls)
          (calls ++ handshakeCalls (E.new_handle calls) pwmd_socket args) := by
  simp [pwm_find_session, handshakeCalls, h0, h1, h2, h3]

/-- The first pwmd_setopt fails: FAIL, the handle closed and cleared. -/
theorem pwm_find_setopt_fails (E : Env) (f : Char) (file : List Char)
    (pwmd_socket : Option (List Char)) (args : Args) (fuel : Nat) (calls : List Call)
    (query : List Char) (do_cache : Nat)
    (h0 : E.rc calls .pwmd_new = 0)
    (h1 : E.rc (calls ++ [.pwmd_new]) (.pwmd_setopt (E.new_handle calls) .LOCK_ON_OPEN 0) ≠ 0) :
    pwm_find E (some (f :: file)) pwmd_socket args fuel none calls query do_cache
      = some { ret := .FAIL, result := none,
               errmsg := some (.setoptFailed (E.rc (calls ++ [.pwmd_new])
                 (.pwmd_setopt (E.new_handle calls) .LOCK_ON_OPEN 0))),
               do_cache := 0, handle := none,
               calls := calls ++ [.pwmd_new, .pwmd_setopt (E.new_handle calls) .LOCK_ON_OPEN 0,
                                  .pwmd_close (some (E.new_handle calls))] } := by
  simp [pwm_find, pwm_find_session, h0, h1]

/-- The pwmd_connect step fails: DEFER, the handle closed and cleared. -/
theorem pwm_find_connect_fails (E : Env) (f : Char) (file : List Char)
    (pwmd_socket : Option (List Char)) (args : Args) (fuel : Nat) (calls : List Call)
    (query : List Char) (do_cache : Nat)
    (h0 : E.rc calls .pwmd_new = 0)
    (h1 : E.rc (calls ++ [.pwmd_new]) (.pwmd_setopt (E.new_handle calls) .LOCK_ON_OPEN 0) = 0)
    (h2 : E.rc (calls ++ [.pwmd_new, .pwmd_setopt (E.new_handle calls) .LOCK_ON_OPEN 0])
      (.pwmd_connect (E.new_handle calls) pwmd_socket args) ≠ 0) :
    pwm_find E (some (f :: file)) pwmd_socket args fuel none calls query do_cache
      = some { ret := .DEFER, result := none,
               errmsg := some (.connectFailed
                 (E.rc (calls ++ [.pwmd_new, .pwmd_setopt (E.new_handle calls) .LOCK_ON_OPEN 0])
                   (.pwmd_connect (E.new_handle calls) pwmd_socket args))),
               do_cache := 0, handle := none,
               calls := calls ++ [.pwmd_new, .pwmd_setopt (E.new_handle calls) .LOCK_ON_OPEN 0,
                                  .pwmd_connect (E.new_handle calls) pwmd_socket args,
                                  .pwmd_close (some (E.new_handle calls))] } := by
  simp [pwm_find, pwm_find_session, h0, h1, h2]

/-- The second pwmd_setopt fails: DEFER, the handle closed and cleared. -/
theorem pwm_find_lock_timeout_fails (E : Env) (f : Char) (file : List Char)
    (pwmd_socket : Option (List Char)) (args : Args) (fuel : Nat) (calls : List Call)
    (query : List Char) (do_cache : Nat)
    (h0 : E.rc calls .pwmd_new = 0)
    (h1 : E.rc (calls ++ [.pwmd_new]) (.pwmd_setopt (E.new_handle calls) .LOCK_ON_OPEN 0) = 0)
    (h2 : E.rc (calls ++ [.pwmd_new, .pwmd_setopt (E.new_handle calls) .LOCK_ON_OPEN 0])
      (.pwmd_connect (E.new_handle calls) pwmd_socket args) = 0)
    (h3 : E.rc (calls ++ [.pwmd_new, .pwmd_setopt (E.new_handle calls) .LOCK_ON_OPEN 0,
        .pwmd_connect (E.new_handle calls) pwmd_socket args])
      (.pwmd_setopt (E.new_handle calls) .LOCK_TIMEOUT 100) ≠ 0) :
    pwm_find E (some (f :: file)) pwmd_socket args fuel none calls query do_cache
      = some { ret := .DEFER, result := none,
               errmsg := some (.lockTimeoutFailed
                 (E.rc (calls ++ [.pwmd_new, .pwmd_setopt (E.new_handle calls) .LOCK_ON_OPEN 0,
                     .pwmd_connect (E.new_handle calls) pwmd_socket args])
                   (.pwmd_setopt (E.new_handle calls) .LOCK_TIMEOUT 100))),
               do_cache := 0, handle := none,
               calls := calls ++ [.pwmd_new, .pwmd_setopt (E.new_handle calls) .LOCK_ON_OPEN 0,
                                  .pwmd_connect (E.new_handle calls) pwmd_socket args,
                                  .pwmd_setopt (E.new_handle calls) .LOCK_TIMEOUT 100,
                                  .pwmd_close (some (E.new_handle calls))] } := by
  simp [pwm_find, pwm_find_session, h0, h1, h2, h3]

/-- C13. When pwmd_new has succeeded and the first pwmd_setopt, pwmd_connect
or the second pwmd_setopt fails, pwm_find returns (not with OK) with the
handle cleared, and the calls it made are pwmd_new, the steps up to the
failing one, and one pwmd_close of the new handle as the last call. The next
pwm_find therefore starts with pwmd_new again, and when its four steps
succeed it runs the whole handshake on the new handle. -/
theorem pwm_find_failed_handshake_discards (E : Env) (f : Char) (file : List Char)
    (pwmd_socket : Option (List Char)) (args : Args) (fuel : Nat) (calls : List Call)
    (query : List Char) (do_cache : Nat)
    (hnew : E.rc calls .pwmd_new = 0)
    (hfail :
      E.rc (calls ++ [.pwmd_new]) (.pwmd_setopt (E.new_handle calls) .LOCK_ON_OPEN 0) ≠ 0
      ∨ E.rc (calls ++ [.pwmd_new, .pwmd_setopt (E.new_handle calls) .LOCK_ON_OPEN 0])
          (.pwmd_connect (E.new_handle calls) pwmd_socket args) ≠ 0
      ∨ E.rc (calls ++ [.pwmd_new, .pwmd_setopt (E.new_handle calls) .LOCK_ON_OPEN 0,
            .pwmd_connect (E.new_handle calls) pwmd_socket args])
          (.pwmd_setopt (E.new_handle calls) .LOCK_TIMEOUT 100) ≠ 0) :
    ∃ out steps,
      pwm_find E (some (f :: file)) pwmd_socket args fuel none calls query do_cache = some out
      ∧ out.ret ≠ .OK
      ∧ out.handle = none
      ∧ out.calls = calls ++ steps ++ [.pwmd_close (some (E.new_handle calls))]
      ∧ steps.head? = some .pwmd_new
      ∧ (∀ c ∈ steps, ∀ x, c ≠ .pwmd_close x)
      ∧ (∀ fuel2 query2 do_cache2 out2,
          pwm_find E (some (f :: file)) pwmd_socket args fuel2 out.handle out.calls query2
            do_cache2 = some out2 →
          ∃ rest, out2.calls = out.calls ++ .pwmd_new :: rest)
      ∧ (E.rc out.calls .pwmd_new = 0 →
          E.rc (out.calls ++ [.pwmd_new])
            (.pwmd_setopt (E.new_handle out.calls) .LOCK_ON_OPEN 0) = 0 →
          E.rc (out.calls ++ [.pwmd_new, .pwmd_setopt (E.new_handle out.calls) .LOCK_ON_OPEN 0])
            (.pwmd_connect (E.new_handle out.calls) pwmd_socket args) = 0 →
          E.rc (out.calls ++ [.pwmd_new, .pwmd_setopt (E.new_handle out.calls) .LOCK_ON_OPEN 0,
              .pwmd_connect (E.new_handle out.calls) pwmd_socket args])
            (.pwmd_setopt (E.new_handle out.calls) .LOCK_TIMEOUT 100) = 0 →
          pwm_find_session E pwmd_socket args out.handle out.calls
            = .ready (E.new_handle out.calls)
                (out.calls ++ handshakeCalls (E.new_handle out.calls) pwmd_socket args)) := by
  by_cases h1 : E.rc (calls ++ [.pwmd_new])
      (.pwmd_setopt (E.new_handle calls) .LOCK_ON_OPEN 0) = 0
  · by_cases h2 : E.rc (calls ++ [.pwmd_new, .pwmd_setopt (E.new_handle calls) .LOCK_ON_OPEN 0])
        (.pwmd_connect (E.new_handle calls) pwmd_socket args) = 0
    · have h3 : E.rc (calls ++ [.pwmd_new, .pwmd_setopt (E.new_handle calls) .LOCK_ON_OPEN 0,
            .pwmd_connect (E.new_handle calls) pwmd_socket args])
          (.pwmd_setopt (E.new_handle calls) .LOCK_TIMEOUT 100) ≠ 0 := by
        rcases hfail with h | h | h
        · exact absurd h1 h
        · exact absurd h2 h
        · exact h
      refine ⟨_, [.pwmd_new, .pwmd_setopt (E.new_handle calls) .LOCK_ON_OPEN 0,
          .pwmd_connect (E.new_handle calls) pwmd_socket args,
          .pwmd_setopt (E.new_handle calls) .LOCK_TIMEOUT 100],
        pwm_find_lock_timeout_fails E f file pwmd_socket args fuel calls query do_cache
          hnew h1 h2 h3, by simp, rfl, by simp, rfl, by simp, ?_, ?_⟩
      · intro fuel2 query2 do_cache2 out2 hnext
        exact pwm_find_fresh_starts_with_new E f file pwmd_socket args fuel2 _ query2
          do_cache2 out2 hnext
      · intro a b c d
        exact pwm_find_session_fresh E pwmd_socket args _ a b c d
    · refine ⟨_, [.pwmd_new, .pwmd_setopt (E.new_handle calls) .LOCK_ON_OPEN 0,
          .pwmd_connect (E.new_handle calls) pwmd_socket args],
        pwm_find_connect_fails E f file pwmd_socket args fuel calls query do_cache
          hnew h1 h2, by simp, rfl, by simp, rfl, by simp, ?_, ?_⟩
      · intro fuel2 query2 do_cache2 out2 hnext
        exact pwm_find_fresh_starts_with_new E f file pwmd_socket args fuel2 _ query2
          do_cache2 out2 hnext
      · intro a b c d
        exact pwm_find_session_fresh E pwmd_socket args _ a b c d
  · refine ⟨_, [.pwmd_new, .pwmd_setopt (E.new_handle calls) .LOCK_ON_OPEN 0],
      pwm_find_setopt_fails E f file pwmd_socket args fuel calls query do_cache hnew h1,
      by simp, rfl, by simp, rfl, by simp, ?_, ?_⟩
    · intro fuel2 query2 do_cache2 out2 hnext
      exact pwm_find_fresh_starts_with_new E f file pwmd_socket args fuel2 _ query2
        do_cache2 out2 hnext
    · intro a b c d
      exact pwm_find_session_fresh E pwmd_socket args _ a b c d

/-- C13 (witness). The scripted transport on which pwmd_connect returns 5: the
calls are pwmd_new, pwmd_setopt, pwmd_connect and one pwmd_close. -/
theorem pwm_find_failed_handshake_discards_witness :
    (scriptEnv [0, 0, 5]).rc [] .pwmd_new = 0
      ∧ (scriptEnv [0, 0, 5]).rc ([] ++ [.pwmd_new, .pwmd_setopt 1 .LOCK_ON_OPEN 0])
          (.pwmd_connect 1 none initial_args) ≠ 0
      ∧ ∃ out steps,
          pwm_find (scriptEnv [0, 0, 5]) (some ['f']) none initial_args 1 none [] ['k'] 0
            = some out
          ∧ out.ret ≠ .OK
          ∧ out.handle = none
          ∧ out.calls = [] ++ steps ++ [.pwmd_close (some 1)]
          ∧ steps.head? = some .pwmd_new
          ∧ (∀ c ∈ steps, ∀ x, c ≠ .pwmd_close x) :=
  ⟨rfl, by decide,
    let ⟨out, steps, h1, h2, h3, h4, h5, h6, _⟩ :=
      pwm_find_failed_handshake_discards (scriptEnv [0, 0, 5]) 'f' [] none initial_args 1 []
        ['k'] 0 rfl (Or.inr (Or.inl (by decide)))
    ⟨out, steps, h1, h2, h3, h4, h5, h6⟩⟩

/-! ## Teardown, escaping and the remaining parser claims -/

/-- C14. The function pwm_tidy always returns with the handle cleared, whether
a handle existed or not; called twice in a row, the second call passes the
NULL handle to pwmd_close and the handle after two calls is the handle after
one. -/
theorem pwm_tidy_idempotent (handle : Option Nat) (calls : List Call) :
    (pwm_tidy handle calls).1 = none
      ∧ pwm_tidy none calls = (none, calls ++ [.pwmd_close none])
      ∧ pwm_tidy (pwm_tidy handle calls).1 (pwm_tidy handle calls).2
          = (none, calls ++ [.pwmd_close handle, .pwmd_close none])
      ∧ (pwm_tidy (pwm_tidy handle calls).1 (pwm_tidy handle calls).2).1
          = (pwm_tidy handle calls).1 := by
  simp [pwm_tidy]

/-- The escaping leaves a character that is neither dollar sign nor backslash
as it is. -/
theorem escape_spec_plain (s : List Char) (h : ∀ c ∈ s, c ≠ '$' ∧ c ≠ '\\') :
    escape_spec s = s := by
  induction s with
  | nil => rfl
  | cons c t ih =>
    have hc := h c (by simp)
    have ht := ih (fun x hx => h x (by simp [hx]))
    simp only [escape_spec, List.flatMap_cons] at ht ⊢
    rw [ht]
    simp [hc.1, hc.2]

/-- C15. A text containing neither a dollar sign nor a backslash is escaped to
itself, and the empty text is escaped to the empty text. -/
theorem escape_plain_text (s : List Char) (h : ∀ c ∈ s, c ≠ '$' ∧ c ≠ '\\') :
    escape s = s ∧ escape [] = [] := by
  refine ⟨?_, rfl⟩
  rw [escape_eq_escape_spec]
  exact escape_spec_plain s h

/-- C15 (witness). The text "plain text, 100%". -/
theorem escape_plain_text_witness :
    (∀ c ∈ "plain text, 100%".toList, c ≠ '$' ∧ c ≠ '\\')
      ∧ escape "plain text, 100%".toList = "plain text, 100%".toList ∧ escape [] = [] :=
  ⟨by decide, escape_plain_text "plain text, 100%".toList (by decide)⟩

/-- C16 (counterexample). A first pwm_open with "a,b,c" fills slots 1 to 3; a
second pwm_open with the shorter text "x" then leaves "b" and "c" of the first
call in slots 2 and 3, and a second pwm_open with the empty text leaves all
three. -/
theorem pwm_open_stale_slots_counterexample :
    pwm_open 4096 0 (some "a,b,c".toList) initial_args
        = .returned { nonNull := true, errmsg := none,
                      args := [some ['a'], some ['b'], some ['c'],
                               none, none, none, none, none] }
      ∧ pwm_open 4096 0 (some "x".toList)
          [some ['a'], some ['b'], some ['c'], none, none, none, none, none]
        = .returned { nonNull := true, errmsg := none,
                      args := [some ['x'], some ['b'], some ['c'],
                               none, none, none, none, none] }
      ∧ pwm_open 4096 0 (some [])
          [some ['a'], some ['b'], some ['c'], none, none, none, none, none]
        = .returned { nonNull := true, errmsg := none,
                      args := [some ['a'], some ['b'], some ['c'],
                               none, none, none, none, none] } := by
  decide

/-- C16 (amended). After a successful parse of N at most 7 segments, slots 1
to N hold the segments of the current text (white space removed) and every
slot past N holds what it held before the call; with an empty or unset text
the whole vector is left as it was. -/
theorem pwm_open_keeps_later_slots (pathMax : Nat) (segs : List (List Char)) (args : Args)
    (hlen : args.length = ARG_MAX)
    (hN : segs.length < ARG_MAX)
    (hcomma : ∀ s ∈ segs, ',' ∉ s)
    (hshort : ∀ s ∈ segs, (squeeze s).length < pathMax)
    (hlast : lastSegmentClosed segs) :
    pwm_open pathMax 0 (some (joinSegments segs)) args
        = .returned { nonNull := true, errmsg := none,
                      args := segs.map (fun s => some (squeeze s)) ++ args.drop segs.length }
      ∧ pwm_open pathMax 0 (some []) args
        = .returned { nonNull := true, errmsg := none, args := args }
      ∧ pwm_open pathMax 0 none args
        = .returned { nonNull := true, errmsg := none, args := args } := by
  have hscan := scan_segments pathMax segs 0 args hlast (by omega) hcomma hshort
  have hargs := storeFrom_append [] (segs.map squeeze) args (by simp; omega)
  simp only [List.nil_append, List.length_nil, List.append_nil, List.length_map] at hargs
  refine ⟨?_, ?_, rfl⟩
  · simp only [pwm_open, hscan, hargs]
    simp [Nat.not_le.mpr hN, Function.comp_def]
  · simp [pwm_open, scan_nil, ARG_MAX]

/-- C16 (witness). The text "x, y" after a call that had filled three slots. -/
theorem pwm_open_keeps_later_slots_witness :
    [some ['a'], some ['b'], some ['c'], none, none, none, none, none].length = ARG_MAX
      ∧ ["x".toList, " y".toList].length < ARG_MAX
      ∧ (∀ s ∈ ["x".toList, " y".toList], ',' ∉ s)
      ∧ (∀ s ∈ ["x".toList, " y".toList], (squeeze s).length < 4096)
      ∧ lastSegmentClosed ["x".toList, " y".toList]
      ∧ pwm_open 4096 0 (some (joinSegments ["x".toList, " y".toList]))
            [some ['a'], some ['b'], some ['c'], none, none, none, none, none]
          = .returned { nonNull := true, errmsg := none,
                        args := ["x".toList, " y".toList].map (fun s => some (squeeze s))
                          ++ ([some ['a'], some ['b'], some ['c'],
                               none, none, none, none, none] : Args).drop
                               ["x".toList, " y".toList].length } :=
  ⟨by decide, by decide, by decide, by decide, ⟨[' '], 'y', rfl, rfl⟩,
    (pwm_open_keeps_later_slots 4096 ["x".toList, " y".toList]
      [some ['a'], some ['b'], some ['c'], none, none, none, none, none]
      (by decide) (by decide) (by decide) (by decide) ⟨[' '], 'y', rfl, rfl⟩).1⟩

/-- C17. With pwmd_socket_args unset or empty and pwmd_init succeeding,
pwm_open on the initial vector returns a non-null value, stores no message,
and leaves all ARG_MAX slots empty; a handshake that follows passes eight
absent arguments to pwmd_connect. -/
theorem pwm_open_no_spec (pathMax : Nat) (spec : Option (List Char))
    (h : spec = none ∨ spec = some []) :
    pwm_open pathMax 0 spec initial_args
        = .returned { nonNull := true, errmsg := none,
                      args := [none, none, none, none, none, none, none, none] }
      ∧ (∀ (E : Env) (pwmd_socket : Option (List Char)) (calls : List Call)
          (out : OpenOutcome),
          pwm_open pathMax 0 spec initial_args = .returned out →
          (∀ c call, E.rc c call = 0) →
          pwm_find_session E pwmd_socket out.args none calls
            = .ready (E.new_handle calls)
                (calls ++ [.pwmd_new, .pwmd_setopt (E.new_handle calls) .LOCK_ON_OPEN 0,
                           .pwmd_connect (E.new_handle calls) pwmd_socket
                             [none, none, none, none, none, none, none, none],
                           .pwmd_setopt (E.new_handle calls) .LOCK_TIMEOUT 100])) := by
  have hopen : pwm_open pathMax 0 spec initial_args
      = .returned { nonNull := true, errmsg := none,
                    args := [none, none, none, none, none, none, none, none] } := by
    rcases h with h | h <;> subst h
    · rfl
    · simp [pwm_open, scan_nil, ARG_MAX, initial_args]
  refine ⟨hopen, ?_⟩
  intro E pwmd_socket calls out hout hok
  rw [hopen] at hout
  cases hout
  simp [pwm_find_session, hok]

/-- C17 (witness). The empty text. -/
theorem pwm_open_no_spec_witness :
    ((some [] : Option (List Char)) = none ∨ (some [] : Option (List Char)) = some [])
      ∧ pwm_open 4096 0 (some []) initial_args
          = .returned { nonNull := true, errmsg := none,
                        args := [none, none, none, none, none, none, none, none] } :=
  ⟨Or.inr rfl, (pwm_open_no_spec 4096 (some []) (Or.inr rfl)).1⟩

theorem escape_spec_length (s : List Char) :
    (escape_spec s).length = s.length + s.countP (fun c => decide (c = '$' ∨ c = '\\')) := by
  induction s with
  | nil => rfl
  | cons c t ih =>
    have hcons : escape_spec (c :: t)
        = (if c = '$' ∨ c = '\\' then ['\\', c] else [c]) ++ escape_spec t := by
      simp [escape_spec, List.flatMap_cons]
    rw [hcons, List.length_append, ih, List.countP_cons]
    by_cases hc : c = '$' ∨ c = '\\'
    · simp only [hc, if_true, List.length_cons, List.length_nil, decide_True]
      omega
    · simp only [hc, if_false, List.length_cons, List.length_nil, decide_False]
      simp
      omega

/-- A pwm_find that returns OK has asked store_get for twice the length of the
reply plus one byte, and stored the escaping of the reply through result. -/
theorem pwm_find_ok_shape (E : Env) (pwmd_file pwmd_socket : Option (List Char))
    (args : Args) (fuel : Nat) (handle : Option Nat) (calls : List Call)
    (query : List Char) (do_cache : Nat) (out : FindOutcome)
    (hret : pwm_find E pwmd_file pwmd_socket args fuel handle calls query do_cache = some out)
    (hok : out.ret = .OK) :
    ∃ h before,
      out.calls = before ++ [.pwmd_command h query,
                             .store_get ((E.reply before).length * 2 + 1), .pwmd_free]
      ∧ out.result = some (escape (E.reply before)) := by
  unfold pwm_find at hret
  split at hret
  · cases hret; cases hok
  · cases hret; cases hok
  · split at hret
    · rename_i hs
      cases hret
      exact absurd hok (pwm_find_session_failed_ret _ _ _ _ _ _ _ _ hs)
    · rename_i h calls1 hs
      split at hret
      · cases hret
      · cases hret; cases hok
      · rename_i r calls2 hloop
        obtain ⟨before, hc, hr⟩ := pwm_find_loop_got E h _ query fuel calls1 r calls2 hloop
        simp only at hret
        split_ifs at hret
        · cases hret; cases hok
        · cases hret
          refine ⟨h, before, ?_, ?_⟩
          · simp [hc, hr]
          · simp [hr]

/-- C18. The escaped text is as long as the reply plus the number of its
dollar signs and backslashes, hence at most twice as long; with its
terminator it fits the block of twice the length plus one byte, and it is
exactly twice as long when every character is a dollar sign or a backslash.
On every OK return of pwm_find the block asked from store_get holds the
result and its terminator. -/
theorem escape_fits_buffer (s : List Char) :
    (escape s).length = s.length + s.countP (fun c => decide (c = '$' ∨ c = '\\'))
      ∧ (escape s).length ≤ s.length * 2
      ∧ (escape s).length + 1 ≤ s.length * 2 + 1
      ∧ ((escape s).length = s.length * 2 ↔ ∀ c ∈ s, c = '$' ∨ c = '\\')
      ∧ (∀ (E : Env) (pwmd_file pwmd_socket : Option (List Char)) (args : Args)
          (fuel : Nat) (handle : Option Nat) (calls : List Call) (query : List Char)
          (do_cache : Nat) (out : FindOutcome),
          pwm_find E pwmd_file pwmd_socket args fuel handle calls query do_cache = some out →
          out.ret = .OK →
          ∃ text size, out.result = some text ∧ Call.store_get size ∈ out.calls
            ∧ text.length + 1 ≤ size) := by
  have hlen : ∀ t : List Char,
      (escape t).length = t.length + t.countP (fun c => decide (c = '$' ∨ c = '\\')) := by
    intro t
    rw [escape_eq_escape_spec]
    exact escape_spec_length t
  have hle : ∀ t : List Char, (escape t).length ≤ t.length * 2 := by
    intro t
    have := List.countP_le_length (fun c => decide (c = '$' ∨ c = '\\')) (l := t)
    rw [hlen t]
    omega
  refine ⟨hlen s, hle s, Nat.succ_le_succ (hle s), ?_, ?_⟩
  · rw [hlen s]
    constructor
    · intro heq
      have hall : s.countP (fun c => decide (c = '$' ∨ c = '\\')) = s.length := by omega
      have := List.countP_eq_length.mp hall
      intro c hc
      simpa using this c hc
    · intro hall
      have : s.countP (fun c => decide (c = '$' ∨ c = '\\')) = s.length :=
        List.countP_eq_length.mpr (fun c hc => by simpa using hall c hc)
      omega
  · intro E pwmd_file pwmd_socket args fuel handle calls query do_cache out hret hok
    obtain ⟨h, before, hcalls, hres⟩ :=
      pwm_find_ok_shape E pwmd_file pwmd_socket args fuel handle calls query do_cache out
        hret hok
    refine ⟨_, _, hres, ?_, Nat.succ_le_succ (hle (E.reply before))⟩
    rw [hcalls]
    simp

/-- C18 (witness). The reply a $ b \ c: seven characters, at most ten. -/
theorem escape_fits_buffer_witness :
    (escape ['a', '$', 'b', '\\', 'c']).length
        = ['a', '$', 'b', '\\', 'c'].length
          + ['a', '$', 'b', '\\', 'c'].countP (fun c => decide (c = '$' ∨ c = '\\'))
      ∧ (escape ['a', '$', 'b', '\\', 'c']).length + 1
        ≤ ['a', '$', 'b', '\\', 'c'].length * 2 + 1 :=
  ⟨(escape_fits_buffer ['a', '$', 'b', '\\', 'c']).1,
    (escape_fits_buffer ['a', '$', 'b', '\\', 'c']).2.2.1⟩

theorem escape_spec_cons (c : Char) (t : List Char) :
    escape_spec (c :: t)
      = (if c = '$' ∨ c = '\\' then ['\\', c] else [c]) ++ escape_spec t := by
  simp [escape_spec, List.flatMap_cons]

theorem unescape_pair (c : Char) (t : List Char) :
    unescape ('\\' :: c :: t) = c :: unescape t := by
  simp [unescape]

theorem unescape_plain (c : Char) (t : List Char) (h : c ≠ '\\') :
    unescape (c :: t) = c :: unescape t := by
  cases t with
  | nil => simp [unescape, h]
  | cons d t => simp [unescape, h]

theorem dollarsGuarded_pair (c : Char) (t : List Char) :
    dollarsGuarded ('\\' :: c :: t) = dollarsGuarded t := by
  simp [dollarsGuarded]

theorem dollarsGuarded_plain (c : Char) (t : List Char) (h1 : c ≠ '\\') (h2 : c ≠ '$') :
    dollarsGuarded (c :: t) = dollarsGuarded t := by
  cases t with
  | nil => simp [dollarsGuarded, h2]
  | cons d t => simp [dollarsGuarded, h1, h2]

theorem unescape_escape_spec (s : List Char) : unescape (escape_spec s) = s := by
  induction s with
  | nil => rfl
  | cons c t ih =>
    rw [escape_spec_cons]
    by_cases hc : c = '$' ∨ c = '\\'
    · simp only [hc, if_true, List.cons_append, List.nil_append]
      rw [unescape_pair, ih]
    · simp only [hc, if_false, List.cons_append, List.nil_append]
      rw [unescape_plain c _ (fun h => hc (Or.inr h)), ih]

theorem dollarsGuarded_escape_spec (s : List Char) : dollarsGuarded (escape_spec s) = true := by
  induction s with
  | nil => rfl
  | cons c t ih =>
    rw [escape_spec_cons]
    by_cases hc : c = '$' ∨ c = '\\'
    · simp only [hc, if_true, List.cons_append, List.nil_append]
      rw [dollarsGuarded_pair, ih]
    · simp only [hc, if_false, List.cons_append, List.nil_append]
      rw [dollarsGuarded_plain c _ (fun h => hc (Or.inr h)) (fun h => hc (Or.inl h)), ih]

/-- C19. Unescaping the escaped text, from left to right, gives back the text
for every text; so the escaping is injective; and in the escaped text, read
from left to right, every dollar sign is the character behind an escaping
backslash. -/
theorem escape_loses_nothing :
    (∀ s : List Char, unescape (escape s) = s)
      ∧ Function.Injective escape
      ∧ (∀ s : List Char, dollarsGuarded (escape s) = true) := by
  have hround : ∀ s : List Char, unescape (escape s) = s := by
    intro s
    rw [escape_eq_escape_spec]
    exact unescape_escape_spec s
  refine ⟨hround, ?_, ?_⟩
  · intro s t hst
    rw [← hround s, ← hround t, hst]
  · intro s
    rw [escape_eq_escape_spec]
    exact dollarsGuarded_escape_spec s

/-- A text that is one comma-free segment followed by a white space character
at its very end drives the scan pointer beyond the terminator. -/
theorem scan_trailing_space (pathMax : Nat) (body : List Char) (c : Char)
    (hsp : isspace c = true) :
    ∀ (st : ScanState), ',' ∉ body →
      (st.buf ++ squeeze body).length < pathMax →
      scan pathMax (body ++ [c]) st = .fault .readPastEnd := by
  induction body with
  | nil =>
    intro st _ hlen
    simp only [squeeze_nil, List.append_nil, List.nil_append] at hlen ⊢
    rw [scan_space_last pathMax c st hsp]
    simp [hlen]
  | cons b s ih =>
    intro st hc hlen
    have hc1 : b ≠ ',' := fun h => hc (by simp [h])
    have hc2 : ',' ∉ s := fun h => hc (by simp [h])
    have hne : s ++ [c] ≠ [] := by simp
    cases hb : isspace b with
    | true =>
      rw [squeeze_cons_space b s hb] at hlen
      obtain ⟨d, r, hdr⟩ := List.exists_cons_of_ne_nil hne
      rw [List.cons_append, hdr, scan_space_more pathMax b d r st hb, ← hdr]
      exact ih st hc2 hlen
    | false =>
      rw [squeeze_cons_other b s hb] at hlen
      have hlt : st.buf.length < pathMax := by
        simp only [List.length_append, List.length_cons] at hlen
        omega
      rw [List.cons_append, scan_plain pathMax b _ st hb hc1 hne hlt]
      exact ih { st with buf := st.buf ++ [b] } hc2 (by simpa using hlen)

/-- A text whose last character is not white space never drives the scan
pointer beyond the terminator. -/
theorem scan_stays_inside (pathMax : Nat) (s : List Char) :
    ∀ (st : ScanState), (∀ c, s.getLast? = some c → isspace c = false) →
      scan pathMax s st ≠ .fault .readPastEnd := by
  induction s with
  | nil => intro st _; simp [scan_nil]
  | cons c rest ih =>
    intro st hlast
    cases hsp : isspace c with
    | true =>
      cases rest with
      | nil =>
        have := hlast c (by simp)
        rw [hsp] at this
        cases this
      | cons d r =>
        rw [scan_space_more pathMax c d r st hsp]
        exact ih st (fun x hx => hlast x (by simpa using hx))
    | false =>
      have hrest : ∀ st2, scan pathMax rest st2 ≠ .fault .readPastEnd := by
        intro st2
        cases rest with
        | nil => simp [scan_nil]
        | cons d r => exact ih st2 (fun x hx => hlast x (by simpa using hx))
      rw [scan.eq_def]
      simp only [hsp, Bool.false_eq_true, if_false]
      split_ifs
      all_goals first
        | exact hrest _
        | simp

/-- C20 (evaluation at the failing input). For the texts "a ", " " and
"a,b" followed by a blank and a tab, the scan pointer is moved beyond the
terminating NUL and dereferenced there. -/
theorem pwm_open_trailing_space_reads_past_end :
    pwm_open 4096 0 (some "a ".toList) initial_args = .fault .readPastEnd
      ∧ pwm_open 4096 0 (some " ".toList) initial_args = .fault .readPastEnd
      ∧ pwm_open 4096 0 (some "a,b \t".toList) initial_args = .fault .readPastEnd := by
  decide

end Pwmd
